import Mathlib

/-!
Verification of `src/Scripts/model2cntk/unimodel/cntkinstance.py`.

The Python module is shallowly embedded: numpy float32 arrays are modelled
exactly as flat lists of rationals (`List ℚ`) or, for the multi-axis kernel
expansion, as a shape together with an index function (`NdArray`); Python
exceptions (AssertionError, IndexError, AttributeError, UnboundLocalError,
ValueError) are modelled by `Except String`; the CNTK graph handles produced
by the operator builders are modelled by small inductive types recording
exactly the data the builders pass to the native ops.
-/

namespace CntkInstance

/-- A pretrained parameter tensor of the uni-model (an entry of a layer's
`parameter_tensor` list): its raw numeric `data`, modelled as a flat list of
rationals. -/
structure UniTensor where
  data : List ℚ
deriving DecidableEq, Repr

/-- A numeric value that is either a Python scalar or a numpy array, as used
for the four batch-norm initial values (the source assigns scalars `1`/`0`
first and may overwrite them with arrays). -/
inductive BnInit where
  | scalar : ℚ → BnInit
  | tensor : List ℚ → BnInit
deriving DecidableEq, Repr

/-- The data handed by `ApiSetup.batch_normalization` to
`ops.batch_normalization`: the shape of the four parameters (the source's
local `parameter_tensor = (sanitize_input.shape[0], )`) and the four initial
values, plus epsilon and the op name. -/
structure BnResult where
  param_shape : List ℕ
  scale_init : BnInit
  bias_init : BnInit
  mean_init : BnInit
  var_init : BnInit
  epsilon : ℚ
  name : String
deriving DecidableEq, Repr

/-- Source line 136: `scale_init = 1 / global_scale if global_scale != 0 else 0`. -/
def bn_inv_scale (global_scale : ℚ) : ℚ :=
  if global_scale ≠ 0 then 1 / global_scale else 0

/-- `ApiSetup.batch_normalization` (source lines 122-154).  `input_shape` is
`sanitize_input.shape`; `parameter_tensor` is the layer's pretrained tensor
list.  Failures (IndexError on an empty shape or empty scale tensor, the
AssertionError of line 132) are modelled by `Except.error`. -/
def ApiSetup.batch_normalization (input_shape : List ℕ) (epsilon : ℚ)
    (parameter_tensor : List UniTensor) (op_name : String) :
    Except String BnResult :=
  match input_shape.head? with
  | none => Except.error "IndexError: tuple index out of range"
  | some c =>
    let inits : Except String (BnInit × BnInit × BnInit × BnInit) :=
      if parameter_tensor ≠ [] then
        if parameter_tensor.length < 3 then
          Except.error "AssertionError: At least three tensors (saved_mean, saved_variance and scale) are needed"
        else
          match parameter_tensor.get? 0, parameter_tensor.get? 1, parameter_tensor.get? 2 with
          | some mean_tensor, some variance_tensor, some scale_tensor =>
            match scale_tensor.data.head? with
            | none => Except.error "IndexError: index 0 is out of bounds"
            | some global_scale =>
              let scale0 := bn_inv_scale global_scale
              let mean0 := BnInit.tensor (mean_tensor.data.map (fun x => x * scale0))
              let var0 := BnInit.tensor (variance_tensor.data.map (fun x => x * scale0))
              if parameter_tensor.length = 5 then
                match parameter_tensor.get? 3, parameter_tensor.get? 4 with
                | some scale_tensor5, some bias_tensor5 =>
                  Except.ok (BnInit.tensor scale_tensor5.data, BnInit.tensor bias_tensor5.data,
                             mean0, var0)
                | _, _ => Except.error "IndexError: list index out of range"
              else
                Except.ok (BnInit.scalar scale0, BnInit.scalar 0, mean0, var0)
          | _, _, _ => Except.error "IndexError: list index out of range"
      else
        Except.ok (BnInit.scalar 1, BnInit.scalar 0, BnInit.scalar 1, BnInit.scalar 0)
    inits.map (fun q =>
      { param_shape := [c], scale_init := q.1, bias_init := q.2.1,
        mean_init := q.2.2.1, var_init := q.2.2.2, epsilon := epsilon, name := op_name })

/-- Modelled from numpy: `numpy.reshape(data, shape)` on a row-major flat
array leaves the flat data unchanged and fails with a ValueError when the
element count does not match the target shape's size. -/
def npReshape (data : List ℚ) (shape : List ℕ) : Except String (List ℚ) :=
  if data.length = shape.prod then Except.ok data
  else Except.error "ValueError: cannot reshape array"

/-- Modelled from numpy: `numpy.transpose` of a 2-D row-major array of
`rows * cols` elements, producing the `cols * rows` row-major transpose:
entry `(j, i)` of the result is entry `(i, j)` of the argument. -/
def npTranspose2d (rows cols : ℕ) (l : List ℚ) : List ℚ :=
  (List.range (cols * rows)).map (fun p => l.getD (p % rows * cols + p / rows) 0)

/-- `reduce(mul, list(input_channel))` of source line 177: Python `reduce`
without an initial value fails on an empty sequence. -/
def reduce_mul (l : List ℕ) : Except String ℕ :=
  match l with
  | [] => Except.error "TypeError: reduce of empty sequence with no initial value"
  | x :: xs => Except.ok (xs.foldl (fun a b => a * b) x)

/-- The dense-weight orientation transform of source lines 188-190: reshape
the flat pretrained data to `(output_channel, flattened_channel)`, transpose
it, and reshape the result into the `scale_shape` layout. -/
def dense_orient (output_channel flattened_channel : ℕ) (scale_shape : List ℕ)
    (data : List ℚ) : Except String (List ℚ) :=
  (npReshape data [output_channel, flattened_channel]).bind (fun d1 =>
    npReshape (npTranspose2d output_channel flattened_channel d1) scale_shape)

/-- The inverse orientation transform (stated by the spec's round-trip
property, not present in the source): reshape a `scale_shape`-layout tensor
back to the 2-D `(flattened_channel, output_channel)` layout, transpose it
back, and reshape to the original flat layout. -/
def dense_orient_inv (output_channel flattened_channel : ℕ)
    (t : List ℚ) : Except String (List ℚ) :=
  (npReshape t [flattened_channel, output_channel]).bind (fun d1 =>
    npReshape (npTranspose2d flattened_channel output_channel d1)
      [output_channel * flattened_channel])

/-- The data handed by `ApiSetup.dense` to `BlockApiSetup.linear`: the two
parameter shapes and the two bound pretrained initial values. -/
structure DenseResult where
  scale_shape : List ℕ
  bias_shape : List ℕ
  scale_init : List ℚ
  bias_init : List ℚ
  name : String
deriving DecidableEq, Repr

/-- `ApiSetup.dense` (source lines 171-194).  `input_channel` is
`sanitize_input.shape`; `num_output` and `transpose` come from the layer's
parameters.  An empty `parameter_tensor` list skips the binding block, so the
final `BlockApiSetup.linear(...)` call references the never-assigned local
`scale_init` — a Python UnboundLocalError, modelled as `Except.error`. -/
def ApiSetup.dense (input_channel : List ℕ) (num_output : ℕ) (transpose : Bool)
    (parameter_tensor : List UniTensor) (op_name : String) :
    Except String DenseResult :=
  (reduce_mul input_channel).bind (fun flattened_channel =>
    let scale_shape := input_channel ++ [num_output]
    let bias_shape := [num_output]
    if parameter_tensor ≠ [] then
      if parameter_tensor.length ≠ 2 then
        Except.error "AssertionError: dense layer layer receives two inputs (scale/bias)"
      else
        match parameter_tensor.get? 0, parameter_tensor.get? 1 with
        | some scale_tensor, some bias_tensor =>
          (if transpose then
            dense_orient num_output flattened_channel scale_shape scale_tensor.data
          else
            npReshape scale_tensor.data scale_shape).bind (fun scale_init =>
            Except.ok { scale_shape := scale_shape, bias_shape := bias_shape,
                        scale_init := scale_init, bias_init := bias_tensor.data,
                        name := op_name })
        | _, _ => Except.error "IndexError: list index out of range"
    else
      Except.error "UnboundLocalError: local variable scale_init referenced before assignment")

/-- A CNTK graph-node handle as produced by the thin pairwise wrappers of
`ApiSetup`: either an already-resolved input handle or the node returned by
one of the native ops `plus`, `cross_entropy_with_softmax`,
`classification_error`. -/
inductive GraphNode where
  | var : String → GraphNode
  | plusNode : GraphNode → GraphNode → String → GraphNode
  | crossEntropyNode : GraphNode → GraphNode → String → GraphNode
  | classificationErrorNode : GraphNode → GraphNode → ℕ → String → GraphNode
deriving DecidableEq, Repr

/-- `ApiSetup.plus` (source lines 196-200): reads `inputs[0]` and
`inputs[1]` directly (a Python IndexError when absent — there is no arity
check) and invokes the native op on those two; any further inputs are
ignored. -/
def ApiSetup.plus (op_name : String) (inputs : List GraphNode) :
    Except String GraphNode :=
  match inputs.get? 0 with
  | none => Except.error "IndexError: list index out of range"
  | some sanitize_left =>
    match inputs.get? 1 with
    | none => Except.error "IndexError: list index out of range"
    | some sanitize_right =>
      Except.ok (GraphNode.plusNode sanitize_left sanitize_right op_name)

/-- `ApiSetup.cross_entropy_with_softmax` (source lines 209-213): same
access pattern as `plus`. -/
def ApiSetup.cross_entropy_with_softmax (op_name : String)
    (inputs : List GraphNode) : Except String GraphNode :=
  match inputs.get? 0 with
  | none => Except.error "IndexError: list index out of range"
  | some sanitize_output =>
    match inputs.get? 1 with
    | none => Except.error "IndexError: list index out of range"
    | some sanitize_label =>
      Except.ok (GraphNode.crossEntropyNode sanitize_output sanitize_label op_name)

/-- `ApiSetup.classification_error` (source lines 202-207): same access
pattern as `plus`, additionally passing the layer's `top_n` parameter. -/
def ApiSetup.classification_error (op_name : String) (top_n : ℕ)
    (inputs : List GraphNode) : Except String GraphNode :=
  match inputs.get? 0 with
  | none => Except.error "IndexError: list index out of range"
  | some sanitize_output =>
    match inputs.get? 1 with
    | none => Except.error "IndexError: list index out of range"
    | some sanitize_label =>
      Except.ok (GraphNode.classificationErrorNode sanitize_output sanitize_label top_n op_name)

/-- The bias parameter created by `BlockApiSetup.convolution` (source line
50): the parameter shape `(output,)` together with the shape and flat data of
its pretrained initial value. -/
structure BiasParam where
  shape : List ℕ
  init_shape : List ℕ
  init_data : List ℚ
deriving DecidableEq, Repr

/-- The parameters created by `BlockApiSetup.convolution` as far as the bias
claim is concerned: the pretrained kernel data handed to weight construction
and the optional bias parameter. -/
structure ConvResult where
  kernel_used : List ℚ
  bias : Option BiasParam
  name : String
deriving DecidableEq, Repr

/-- `BlockApiSetup.convolution`'s parameter creation (source lines 41-50).
With `kernel_init = None` (no pretrained tensors) the `group == 1` path
fails inside `weights_parameter` at `init.copy()` (AttributeError on
`None`), and the `group != 1` path fails at `numpy.split(None, group)` — in
both cases before the optional bias parameter is created.  `numpy.split`
also fails when the leading kernel size does not divide evenly by `group`
(modelled on the flat data length).  The bias parameter `b` of shape
`(output,)` is created exactly when `bias_init is not None`. -/
def BlockApiSetup.convolution (output : ℕ) (kernel_init : Option (List ℚ))
    (bias_init : Option (List ℕ × List ℚ)) (group : ℕ) (name : String) :
    Except String ConvResult :=
  match kernel_init with
  | none =>
    if group = 1 then
      Except.error "AttributeError: NoneType object has no attribute copy"
    else
      Except.error "TypeError: NoneType object cannot be split"
  | some ki =>
    if group = 1 ∨ ki.length % group = 0 then
      Except.ok { kernel_used := ki,
                  bias := bias_init.map (fun bi => ⟨[output], bi.1, bi.2⟩),
                  name := name }
    else
      Except.error "ValueError: array split does not result in an equal division"

/-- The bias-initial-value block of `ApiSetup.convolution` (source lines
109-116): `bias_init` stays `None` unless the descriptor requires a bias AND
pretrained tensors are present, in which case `parameter_tensor[1]` (a
Python IndexError when absent) is reshaped to `(output_channel, 1, 1)`. -/
def conv_bias_init (need_bias : Bool) (output_channel : ℕ)
    (parameter_tensor : List UniTensor) :
    Except String (Option (List ℕ × List ℚ)) :=
  if need_bias = true ∧ parameter_tensor ≠ [] then
    match parameter_tensor.get? 1 with
    | none => Except.error "IndexError: list index out of range"
    | some bias_data_tensor =>
      match npReshape bias_data_tensor.data [output_channel, 1, 1] with
      | Except.error err => Except.error err
      | Except.ok d => Except.ok (some ([output_channel, 1, 1], d))
  else Except.ok none

/-- The hyperparameters of a convolution layer descriptor read by
`ApiSetup.convolution` (source lines 97-120). -/
structure ConvParams where
  output : ℕ
  kernel : List ℕ
  stride : List ℕ
  auto_pad : Bool
  need_bias : Bool
  group : ℕ
  dilation : List ℕ
deriving DecidableEq, Repr

/-- `ApiSetup.convolution` (source lines 97-120): the kernel initial value is
the first pretrained tensor when present and `None` otherwise; the bias
initial value comes from `conv_bias_init`; both are handed to
`BlockApiSetup.convolution`. -/
def ApiSetup.convolution (params : ConvParams) (parameter_tensor : List UniTensor)
    (op_name : String) : Except String ConvResult :=
  let kernel_init : Option (List ℚ) :=
    match parameter_tensor with
    | [] => none
    | kernel_data_tensor :: _ => some kernel_data_tensor.data
  (conv_bias_init params.need_bias params.output parameter_tensor).bind
    (fun bias_init =>
      BlockApiSetup.convolution params.output kernel_init bias_init
        params.group op_name)

/-- A multi-dimensional numpy array: a shape together with a total
multi-index valuation.  The kernel-expansion code reads and writes the array
only through multi-indices, so a row-major data layout is not needed. -/
structure NdArray where
  shape : List ℕ
  val : List ℕ → ℚ

/-- Where sequentially applied insertions land: `numpy.insert` with a list
`obj` of positions given relative to the original array places the i-th
inserted entry at final position `obj[i] + i` (for the ascending `obj` used
here). -/
def finalPositions (obj : List ℕ) : List ℕ :=
  obj.enum.map (fun p => p.2 + p.1)

/-- Modelled from numpy: `numpy.insert(arr, obj, 0, axis)` for an ascending
list `obj` of insertion positions given relative to the original array (the
only usage in the source): along `axis` the dimension grows by `obj.length`;
the final positions `obj[i] + i` hold zeros, and any other index `j` reads
the original array at `j` minus the number of inserted positions below `j`.
All other axes are untouched. -/
def npInsertZeros (arr : NdArray) (obj : List ℕ) (axis : ℕ) : NdArray :=
  let fp := finalPositions obj
  { shape := arr.shape.set axis (arr.shape.getD axis 0 + obj.length),
    val := fun idx =>
      let j := idx.getD axis 0
      if j ∈ fp then 0
      else arr.val (idx.set axis (j - (fp.filter (fun f => f < j)).length)) }

/-- `dilation_kernel` of source line 28: per-axis effective kernel size
`(k - 1) * d + 1` (natural subtraction; every real kernel has `k ≥ 1`, which
the theorems assume, making it agree with Python's integers). -/
def dilation_kernel (kernel dilation : List ℕ) : List ℕ :=
  (kernel.zip dilation).map (fun kd => (kd.1 - 1) * kd.2 + 1)

/-- `insert_lines` of source line 34, before the index adjustment: the
symmetric difference `set(range(dilation_kernel[axis])) ^ set(kernel_sequence)`
with `kernel_sequence = [x * dilation[axis] for x in range(kernel[axis])]`.
Every kernel tap lies below the dilated size, so this is the set of gap
positions; CPython iterates a set of small ints in ascending order, giving
the ascending list modelled here. -/
def insert_lines_for (kernel dilation : List ℕ) (axis : ℕ) : List ℕ :=
  (List.range ((dilation_kernel kernel dilation).getD axis 0)).filter
    (fun x => x ∉ (List.range (kernel.getD axis 0)).map
      (fun y => y * dilation.getD axis 0))

/-- The in-place adjustment `insert_lines[index] -= index` of source lines
35-36, turning desired final positions into `numpy.insert` positions. -/
def adjusted_insert_lines (kernel dilation : List ℕ) (axis : ℕ) : List ℕ :=
  (insert_lines_for kernel dilation axis).enum.map (fun p => p.2 - p.1)

/-- The state of `used_init` after the first `m` iterations of the per-axis
expansion loop of source lines 32-37 (kernel axis `a` is numpy axis
`len(init.shape) - a - 1`). -/
def expandPref (kernel dilation : List ℕ) (init : NdArray) (m : ℕ) :
    NdArray :=
  (List.range m).foldl
    (fun used axis =>
      npInsertZeros used (adjusted_insert_lines kernel dilation axis)
        (init.shape.length - axis - 1))
    init

/-- The `used_init` computation of the inner `weights_parameter` of
`BlockApiSetup.convolution` (source lines 27-37): `init.copy()` unchanged
when the dilated kernel shape equals the kernel shape, otherwise the
axis-by-axis zero insertion loop. -/
def weights_parameter_used_init (kernel dilation : List ℕ) (init : NdArray) :
    NdArray :=
  if dilation_kernel kernel dilation = kernel then init
  else expandPref kernel dilation init dilation.length

/-- Division of the trailing `m` spatial indices by their dilation factors
(index position `p` of an `n`-position multi-index is kernel axis
`n - 1 - p`): maps a dilated-kernel multi-index back to the original kernel
tap it reads. -/
def shrinkUpTo (dilation : List ℕ) (n m : ℕ) (idx : List ℕ) : List ℕ :=
  (List.range idx.length).map (fun p =>
    if n - m ≤ p then idx.getD p 0 / dilation.getD (n - 1 - p) 0
    else idx.getD p 0)

/-- Concrete kernel tensor for the C5 witness: shape `(1, 3)` holding the
taps 3, 5, 7 along its single spatial axis. -/
def dilWitnessInit : NdArray :=
  { shape := [1, 3],
    val := fun idx =>
      if idx = [0, 0] then 3 else if idx = [0, 1] then 5
      else if idx = [0, 2] then 7 else 0 }

/-- Concrete convolution hyperparameters used by the C7 witness. -/
def convWitnessParams : ConvParams :=
  { output := 2, kernel := [1, 1], stride := [1, 1], auto_pad := false,
    need_bias := true, group := 1, dilation := [1, 1] }

/-- Concrete pretrained tensors (kernel and bias) used by the C7 witness. -/
def convWitnessTensors : List UniTensor := [⟨[1, 2, 3, 4]⟩, ⟨[5, 6]⟩]

/-- The handle the C7 witness's convolution call produces. -/
def convWitnessResult : ConvResult :=
  { kernel_used := [1, 2, 3, 4], bias := some ⟨[2], [2, 1, 1], [5, 6]⟩,
    name := "conv2" }

/-- A layer descriptor as read by `CntkApiInstance.instance_functions`: its
identifier (`op_name`), the builder-selecting tag (`op_type`, unused by the
assembler model, whose builder calls are abstracted into fresh handles), and
its ordered list of producer identifiers. -/
structure CntkLayer where
  op_name : String
  op_type : String
  inputs : List String
deriving DecidableEq, Repr

/-- A graph-node handle held in the assembler's symbol table.  Python object
identity of the distinct `cntk.input` and builder return values is modelled
by tagging each handle with the name it was created for: with pairwise
distinct names (a hypothesis of the theorems) handles compare exactly like
the distinct Python objects. -/
inductive Handle where
  | input : String → Handle
  | layer : String → Handle
deriving DecidableEq, Repr

/-- The `_functions` dict: insertion-ordered association list, newest entry
first (lookup hits the newest binding, matching dict overwrite semantics). -/
abbrev SymbolTable := List (String × Handle)

/-- Python dict lookup on the association-list model. -/
def dictLookup {β : Type} : List (String × β) → String → Option β
  | [], _ => none
  | (k, v) :: rest, key => if k = key then some v else dictLookup rest key

/-- The assembler state: the `_functions` symbol table and the `usused_func`
set of not-yet-consumed handles (the source's spelling). -/
structure AsmState where
  functions : SymbolTable
  usused_func : Finset Handle

/-- The per-layer input resolution of source lines 270-274: for each declared
input identifier, look it up in `_functions` (a missing key is a Python
KeyError, modelled as `none`), append the handle, and remove it from
`usused_func` if present. -/
def consumeInputs (functions : SymbolTable) :
    List String → Finset Handle → Option (List Handle × Finset Handle)
  | [], usused => some ([], usused)
  | local_input :: rest, usused =>
    match dictLookup functions local_input with
    | none => none
    | some h =>
      let usused' := if h ∈ usused then usused.erase h else usused
      match consumeInputs functions rest usused' with
      | none => none
      | some (hs, u) => some (h :: hs, u)

/-- One iteration of the `instance_functions` loop (source lines 268-276):
look the sorted identifier up in `cntk_layers`, resolve and consume its
inputs, then bind the builder's output — modelled as the fresh handle
`Handle.layer op_name` — under the layer's `op_name` and add it to
`usused_func`. -/
def instance_functions_step (cntk_layers : List (String × CntkLayer))
    (st : AsmState) (cntk_sorted_layer : String) : Option AsmState :=
  match dictLookup cntk_layers cntk_sorted_layer with
  | none => none
  | some cntk_layer =>
    match consumeInputs st.functions cntk_layer.inputs st.usused_func with
    | none => none
    | some (_, usused') =>
      some { functions := (cntk_layer.op_name, Handle.layer cntk_layer.op_name)
               :: st.functions,
             usused_func := insert (Handle.layer cntk_layer.op_name) usused' }

/-- `CntkApiInstance.instance_functions` (source lines 266-277): fold the
per-layer step over the topologically sorted identifiers; the final
`usused_func` set is what line 277 passes to `ops.combine`. -/
def instance_functions (cntk_layers : List (String × CntkLayer)) :
    AsmState → List String → Option AsmState
  | st, [] => some st
  | st, s :: rest =>
    match instance_functions_step cntk_layers st s with
    | none => none
    | some st' => instance_functions cntk_layers st' rest

/-- `CntkApiInstance.instance_input` (source lines 256-264): one named input
placeholder per override entry (when `cntk_tensor` is set) or per data
provider, inserted into `_functions`. -/
def instance_input (cntk_tensor : Option (List (String × List ℕ)))
    (data_providers : List (String × List ℕ)) : SymbolTable :=
  match cntk_tensor with
  | some ts => ts.foldl (fun t kv => (kv.1, Handle.input kv.1) :: t) []
  | none => data_providers.foldl (fun t dp => (dp.1, Handle.input dp.1) :: t) []

/-- Well-formedness of the layer registry for the sorted identifiers: every
sorted identifier is registered and its descriptor's `op_name` is that
identifier. -/
def wfFind (cntk_layers : List (String × CntkLayer))
    (sorted : List String) : Bool :=
  sorted.all (fun s =>
    match dictLookup cntk_layers s with
    | some l => l.op_name == s
    | none => false)

/-- Topological order of the sorted identifiers over the placeholder names:
processed left to right, every declared input of a layer is a placeholder
name or an identifier already processed. -/
def wfTopo (cntk_layers : List (String × CntkLayer))
    (placeholders : List String) : List String → List String → Bool
  | _, [] => true
  | done, s :: rest =>
    (match dictLookup cntk_layers s with
     | some l => l.inputs.all (fun x => placeholders.contains x || done.contains x)
     | none => false) &&
    wfTopo cntk_layers placeholders (done ++ [s]) rest

/-- The declared inputs of the layer registered under an identifier. -/
def inputsOf (cntk_layers : List (String × CntkLayer)) (s : String) :
    List String :=
  match dictLookup cntk_layers s with
  | some l => l.inputs
  | none => []

/-- Whether some other sorted layer lists the identifier among its inputs. -/
def consumedElsewhere (cntk_layers : List (String × CntkLayer))
    (sorted : List String) (s : String) : Bool :=
  sorted.any (fun t => (!(t == s)) && (inputsOf cntk_layers t).contains s)

/-- The claimed terminal set: the handles of the layers whose identifier
never appears in any other layer's inputs list. -/
def terminalHandles (cntk_layers : List (String × CntkLayer))
    (sorted : List String) : Finset Handle :=
  ((sorted.filter (fun s => !(consumedElsewhere cntk_layers sorted s))).map
    Handle.layer).toFinset

/-- The synthetic branching DAG of the C1 witness: `A → B`, `A → C`,
`B, C → D`, with `A` reading the input placeholder `data`. -/
def c1Layers : List (String × CntkLayer) :=
  [("A", ⟨"A", "convolution", ["data"]⟩),
   ("B", ⟨"B", "relu", ["A"]⟩),
   ("C", ⟨"C", "pooling", ["A"]⟩),
   ("D", ⟨"D", "plus", ["B", "C"]⟩)]

/-- The fields of `classify_eval_solver` that `Evaluator.eval_model` reads
before constructing the minibatch reader. -/
structure EvalSolver where
  index_map : Option String
  mean_file : Option String
deriving DecidableEq, Repr

/-- Outcome of the prefix of `Evaluator.eval_model` ending at reader
construction: either an early plain `return` (with the stdout lines written
so far) or a proceed-to-construction carrying the located map file and
whatever `mean_file` holds. -/
inductive EvalOutcome where
  | earlyExit : List String → EvalOutcome
  | proceed : List String → String → Option String → EvalOutcome
deriving DecidableEq, Repr

/-- `Evaluator.eval_model` up to its reader construction (source lines
310-323): writes two stdout lines, then checks only `index_map` — a missing
index file produces one more diagnostic line and an early plain `return`.
Otherwise the method proceeds to `create_reader(map_file, mean_file, ...)`
with whatever `mean_file` holds; the method contains no `try/except`, so any
error raised from that point on propagates to the caller. -/
def eval_model (solver : EvalSolver) : EvalOutcome :=
  let lines := ["start eval...", "launch map and mean files"]
  match solver.index_map with
  | none => EvalOutcome.earlyExit (lines ++ ["fail to locate index files, eval exit."])
  | some map_file => EvalOutcome.proceed lines map_file solver.mean_file

end CntkInstance

namespace CntkInstance

/-- C2: for every batch-normalization layer descriptor whose
`parameter_tensor` list is non-empty but has fewer than 3 tensors, the
builder raises the validation error of source line 132 before constructing or
returning any output handle (the `Except.error` is produced before any
`BnResult` is built). -/
theorem bn_rejects_fewer_than_three (input_shape : List ℕ) (epsilon : ℚ)
    (parameter_tensor : List UniTensor) (op_name : String)
    (hshape : input_shape ≠ []) (hne : parameter_tensor ≠ [])
    (hlt : parameter_tensor.length < 3) :
    ApiSetup.batch_normalization input_shape epsilon parameter_tensor op_name =
      Except.error "AssertionError: At least three tensors (saved_mean, saved_variance and scale) are needed" := by
  cases input_shape with
  | nil => exact absurd rfl hshape
  | cons c rest =>
    simp only [ApiSetup.batch_normalization, List.head?_cons]
    rw [if_pos hne, if_pos hlt]
    rfl

/-- Witness for C2: a concrete batch-norm descriptor with exactly 2
pretrained tensors is rejected with the assertion error. -/
theorem bn_rejects_fewer_than_three_witness :
    ApiSetup.batch_normalization [4, 8, 8] (1 / 100000)
        [⟨[1, 2, 3, 4]⟩, ⟨[5, 6, 7, 8]⟩] "bn1" =
      Except.error "AssertionError: At least three tensors (saved_mean, saved_variance and scale) are needed" :=
  bn_rejects_fewer_than_three [4, 8, 8] (1 / 100000)
    [⟨[1, 2, 3, 4]⟩, ⟨[5, 6, 7, 8]⟩] "bn1"
    (by decide) (by decide) (by decide)

/-- C3: for every batch-norm layer with at least 3 pretrained tensors whose
global-scale scalar is the head of the third tensor, the computed inverse
scale is `0` when the global scale is `0` (no division-by-zero failure: the
builder still succeeds) and `1/global_scale` otherwise, and the raw
running-mean and running-variance tensors are multiplied elementwise by this
inverse scale before use — hence become all-zero for a zero global scale. -/
theorem bn_inv_scale_rescaling (input_shape : List ℕ) (epsilon : ℚ)
    (parameter_tensor : List UniTensor) (op_name : String)
    (t0 t1 t2 : UniTensor) (pts : List UniTensor)
    (hpt : parameter_tensor = t0 :: t1 :: t2 :: pts)
    (g : ℚ) (gs : List ℚ) (hg : t2.data = g :: gs)
    (c : ℕ) (cs : List ℕ) (hshape : input_shape = c :: cs) :
    bn_inv_scale 0 = 0 ∧
    (g ≠ 0 → bn_inv_scale g = 1 / g) ∧
    ∃ r, ApiSetup.batch_normalization input_shape epsilon parameter_tensor op_name =
          Except.ok r ∧
        r.mean_init = BnInit.tensor (t0.data.map (fun x => x * bn_inv_scale g)) ∧
        r.var_init = BnInit.tensor (t1.data.map (fun x => x * bn_inv_scale g)) ∧
        (g = 0 →
          r.mean_init = BnInit.tensor (t0.data.map (fun _ => 0)) ∧
          r.var_init = BnInit.tensor (t1.data.map (fun _ => 0))) := by
  subst hpt hshape
  obtain ⟨d2⟩ := t2
  replace hg : d2 = g :: gs := hg
  subst hg
  refine ⟨by simp [bn_inv_scale], fun hgne => by simp [bn_inv_scale, hgne], ?_⟩
  by_cases h5 : pts.length = 2
  · match pts, h5 with
    | [t3, t4], _ =>
      have heq : ApiSetup.batch_normalization (c :: cs) epsilon
          (t0 :: t1 :: (⟨g :: gs⟩ : UniTensor) :: [t3, t4]) op_name =
          Except.ok
            { param_shape := [c], scale_init := BnInit.tensor t3.data,
              bias_init := BnInit.tensor t4.data,
              mean_init := BnInit.tensor (t0.data.map (fun x => x * bn_inv_scale g)),
              var_init := BnInit.tensor (t1.data.map (fun x => x * bn_inv_scale g)),
              epsilon := epsilon, name := op_name } := rfl
      refine ⟨_, heq, rfl, rfl, fun hg0 => ?_⟩
      subst hg0
      constructor <;> · simp [bn_inv_scale]
  · have hne : (t0 :: t1 :: (⟨g :: gs⟩ : UniTensor) :: pts) ≠ [] := by simp
    have hlt : ¬ ((t0 :: t1 :: (⟨g :: gs⟩ : UniTensor) :: pts).length < 3) := by
      simp only [List.length_cons]
      omega
    have h5' : ¬ ((t0 :: t1 :: (⟨g :: gs⟩ : UniTensor) :: pts).length = 5) := by
      simp only [List.length_cons]
      omega
    have heq : ApiSetup.batch_normalization (c :: cs) epsilon
        (t0 :: t1 :: (⟨g :: gs⟩ : UniTensor) :: pts) op_name =
        Except.ok
          { param_shape := [c], scale_init := BnInit.scalar (bn_inv_scale g),
            bias_init := BnInit.scalar 0,
            mean_init := BnInit.tensor (t0.data.map (fun x => x * bn_inv_scale g)),
            var_init := BnInit.tensor (t1.data.map (fun x => x * bn_inv_scale g)),
            epsilon := epsilon, name := op_name } := by
      simp only [ApiSetup.batch_normalization, List.head?_cons, List.get?_cons_zero,
        List.get?_cons_succ, if_pos hne, if_neg hlt, if_neg h5']
      rfl
    refine ⟨_, heq, rfl, rfl, fun hg0 => ?_⟩
    subst hg0
    constructor <;> · simp [bn_inv_scale]

/-- Witness for C3: a concrete batch-norm descriptor with 3 tensors and
global scale 0 succeeds, with all-zero rescaled running statistics. -/
theorem bn_inv_scale_rescaling_witness :
    bn_inv_scale 0 = 0 ∧
    ((0 : ℚ) ≠ 0 → bn_inv_scale 0 = 1 / 0) ∧
    ∃ r, ApiSetup.batch_normalization [2] (1 / 100000)
          [⟨[1, 2]⟩, ⟨[3, 4]⟩, ⟨[0]⟩] "bn2" = Except.ok r ∧
        r.mean_init = BnInit.tensor ((⟨[1, 2]⟩ : UniTensor).data.map (fun x => x * bn_inv_scale 0)) ∧
        r.var_init = BnInit.tensor ((⟨[3, 4]⟩ : UniTensor).data.map (fun x => x * bn_inv_scale 0)) ∧
        ((0 : ℚ) = 0 →
          r.mean_init = BnInit.tensor ((⟨[1, 2]⟩ : UniTensor).data.map (fun _ => 0)) ∧
          r.var_init = BnInit.tensor ((⟨[3, 4]⟩ : UniTensor).data.map (fun _ => 0))) :=
  bn_inv_scale_rescaling [2] (1 / 100000)
    [⟨[1, 2]⟩, ⟨[3, 4]⟩, ⟨[0]⟩] "bn2"
    ⟨[1, 2]⟩ ⟨[3, 4]⟩ ⟨[0]⟩ [] rfl 0 [] rfl 2 [] rfl

/-- C4: for a batch-norm descriptor with exactly 5 pretrained tensors the
fourth and fifth tensors are used directly as the affine scale and bias
initial values, while the running mean and variance are rescaled only by the
inverse of the global scale (third tensor) and not additionally by the affine
pair; with exactly 3 tensors the affine pair is instead the scalar pair
`(inv_scale, 0)` — the two forms are selected solely by the tensor count. -/
theorem bn_five_vs_three_tensor_form (epsilon : ℚ) (op_name : String)
    (t0 t1 t2 t3 t4 : UniTensor) (g : ℚ) (gs : List ℚ) (hg : t2.data = g :: gs)
    (c : ℕ) (cs : List ℕ) :
    (ApiSetup.batch_normalization (c :: cs) epsilon [t0, t1, t2, t3, t4] op_name =
      Except.ok
        { param_shape := [c],
          scale_init := BnInit.tensor t3.data,
          bias_init := BnInit.tensor t4.data,
          mean_init := BnInit.tensor (t0.data.map (fun x => x * bn_inv_scale g)),
          var_init := BnInit.tensor (t1.data.map (fun x => x * bn_inv_scale g)),
          epsilon := epsilon, name := op_name }) ∧
    (ApiSetup.batch_normalization (c :: cs) epsilon [t0, t1, t2] op_name =
      Except.ok
        { param_shape := [c],
          scale_init := BnInit.scalar (bn_inv_scale g),
          bias_init := BnInit.scalar 0,
          mean_init := BnInit.tensor (t0.data.map (fun x => x * bn_inv_scale g)),
          var_init := BnInit.tensor (t1.data.map (fun x => x * bn_inv_scale g)),
          epsilon := epsilon, name := op_name }) := by
  obtain ⟨d2⟩ := t2
  replace hg : d2 = g :: gs := hg
  subst hg
  exact ⟨rfl, rfl⟩

theorem except_bind_ok {α β : Type} (a : α) (f : α → Except String β) :
    (Except.ok a : Except String α).bind f = f a := rfl

theorem getD_eq_elem {α : Type} (l : List α) (d : α) (n : ℕ) (h : n < l.length) :
    l.getD n d = l[n] := by
  rw [List.getD_eq_getElem?_getD, List.getElem?_eq_getElem h, Option.getD_some]

theorem npTranspose2d_length (rows cols : ℕ) (l : List ℚ) :
    (npTranspose2d rows cols l).length = cols * rows := by
  simp [npTranspose2d]

theorem npTranspose2d_getD (rows cols : ℕ) (l : List ℚ) (p : ℕ)
    (hp : p < cols * rows) :
    (npTranspose2d rows cols l).getD p 0 = l.getD (p % rows * cols + p / rows) 0 := by
  rw [getD_eq_elem _ _ _ (by rw [npTranspose2d_length]; exact hp)]
  simp only [npTranspose2d, List.getElem_map, List.getElem_range]

theorem npTranspose2d_round_trip (rows cols : ℕ) (l : List ℚ)
    (h : l.length = rows * cols) :
    npTranspose2d cols rows (npTranspose2d rows cols l) = l := by
  rcases Nat.eq_zero_or_pos rows with hr | hr
  · subst hr
    have hnil : l = [] := List.eq_nil_of_length_eq_zero (by omega)
    subst hnil
    simp [npTranspose2d]
  rcases Nat.eq_zero_or_pos cols with hc | hc
  · subst hc
    have hnil : l = [] := List.eq_nil_of_length_eq_zero (by omega)
    subst hnil
    simp [npTranspose2d]
  apply List.ext_getElem
  · rw [npTranspose2d_length, h]
  intro q h1 h2
  have hq : q < rows * cols := by rw [← h]; exact h2
  have hq2 : q < cols * rows := by rw [Nat.mul_comm cols rows]; exact hq
  have hj : q % cols < cols := Nat.mod_lt _ hc
  have hi : q / cols < rows := (Nat.div_lt_iff_lt_mul hc).2 hq
  have hp : q % cols * rows + q / cols < cols * rows := by
    calc q % cols * rows + q / cols < q % cols * rows + rows := Nat.add_lt_add_left hi _
      _ = (q % cols + 1) * rows := by ring
      _ ≤ cols * rows := Nat.mul_le_mul_right _ hj
  rw [← getD_eq_elem _ 0 _ h1, ← getD_eq_elem _ 0 _ h2]
  rw [npTranspose2d_getD cols rows _ q hq]
  rw [npTranspose2d_getD rows cols l _ hp]
  have hmod : (q % cols * rows + q / cols) % rows = q / cols := by
    rw [Nat.mul_comm (q % cols) rows, Nat.mul_add_mod, Nat.mod_eq_of_lt hi]
  have hdiv : (q % cols * rows + q / cols) / rows = q % cols := by
    rw [Nat.mul_comm (q % cols) rows, Nat.mul_add_div hr, Nat.div_eq_of_lt hi, Nat.add_zero]
  rw [hmod, hdiv]
  have hidx : q / cols * cols + q % cols = q := by
    rw [Nat.mul_comm]
    exact Nat.div_add_mod q cols
  rw [hidx]

/-- C6: for every dense-layer weight tensor whose element count equals
`output_channel * flattened_channel`, the orientation transform of source
lines 188-190 (reshape to `(output_channel, flattened_channel)`, transpose,
reshape to the `input_shape + output_shape` layout) is invertible: applying
the inverse reshape, inverse transpose and inverse reshape to its result
returns the original tensor exactly. -/
theorem dense_orient_round_trip (output_channel flattened_channel : ℕ)
    (scale_shape : List ℕ) (data : List ℚ)
    (hdata : data.length = output_channel * flattened_channel)
    (hshape : scale_shape.prod = output_channel * flattened_channel) :
    ∃ t, dense_orient output_channel flattened_channel scale_shape data = Except.ok t ∧
      dense_orient_inv output_channel flattened_channel t = Except.ok data := by
  have hlen1 : data.length = ([output_channel, flattened_channel] : List ℕ).prod := by
    simp [hdata]
  have hlen2 : (npTranspose2d output_channel flattened_channel data).length = scale_shape.prod := by
    rw [npTranspose2d_length, hshape, Nat.mul_comm]
  have hlen3 : (npTranspose2d output_channel flattened_channel data).length =
      ([flattened_channel, output_channel] : List ℕ).prod := by
    simp [npTranspose2d_length, Nat.mul_comm]
  refine ⟨npTranspose2d output_channel flattened_channel data, ?_, ?_⟩
  · unfold dense_orient npReshape
    rw [if_pos hlen1]
    show npReshape _ scale_shape = _
    unfold npReshape
    rw [if_pos hlen2]
  · unfold dense_orient_inv npReshape
    rw [if_pos hlen3]
    show npReshape _ _ = _
    unfold npReshape
    rw [npTranspose2d_round_trip _ _ _ hdata,
        if_pos (by simp [hdata])]

/-- Witness for C6: a concrete 2-by-3 dense weight round-trips exactly. -/
theorem dense_orient_round_trip_witness :
    ∃ t, dense_orient 2 3 [3, 2] [10, 11, 12, 20, 21, 22] = Except.ok t ∧
      dense_orient_inv 2 3 t = Except.ok [10, 11, 12, 20, 21, 22] :=
  dense_orient_round_trip 2 3 [3, 2] [10, 11, 12, 20, 21, 22] (by decide) (by decide)

/-- C10: for every dense layer descriptor whose `parameter_tensor` list is
empty, the builder fails (the scale and bias initial values are never bound
before the final `BlockApiSetup.linear` call uses them — a Python
UnboundLocalError) rather than building a default dense layer; a non-empty
list of length other than 2 raises the validation error of source line 183,
and a successful build implies exactly 2 pretrained tensors were present. -/
theorem dense_binding_requires_two (input_channel : List ℕ) (num_output : ℕ)
    (transpose : Bool) (parameter_tensor : List UniTensor) (op_name : String)
    (hin : input_channel ≠ []) :
    (parameter_tensor = [] →
      ApiSetup.dense input_channel num_output transpose parameter_tensor op_name =
        Except.error "UnboundLocalError: local variable scale_init referenced before assignment") ∧
    (parameter_tensor ≠ [] → parameter_tensor.length ≠ 2 →
      ApiSetup.dense input_channel num_output transpose parameter_tensor op_name =
        Except.error "AssertionError: dense layer layer receives two inputs (scale/bias)") ∧
    (∀ r, ApiSetup.dense input_channel num_output transpose parameter_tensor op_name =
        Except.ok r → parameter_tensor.length = 2) := by
  obtain ⟨x, xs, rfl⟩ : ∃ x xs, input_channel = x :: xs := by
    cases input_channel with
    | nil => exact absurd rfl hin
    | cons x xs => exact ⟨x, xs, rfl⟩
  have herr : parameter_tensor ≠ [] → parameter_tensor.length ≠ 2 →
      ApiSetup.dense (x :: xs) num_output transpose parameter_tensor op_name =
        Except.error "AssertionError: dense layer layer receives two inputs (scale/bias)" := by
    intro hne hlen
    simp only [ApiSetup.dense, reduce_mul, except_bind_ok]
    rw [if_pos hne, if_pos hlen]
  refine ⟨?_, herr, ?_⟩
  · rintro rfl
    rfl
  · intro r hok
    by_cases hne : parameter_tensor = []
    · subst hne
      exact absurd hok (by simp [ApiSetup.dense, reduce_mul, except_bind_ok])
    · by_cases hlen : parameter_tensor.length = 2
      · exact hlen
      · rw [herr hne hlen] at hok
        exact absurd hok (by simp)
theorem bn_five_vs_three_tensor_form_witness :
    (ApiSetup.batch_normalization [2] (1 / 100000)
        [⟨[1, 2]⟩, ⟨[3, 4]⟩, ⟨[2]⟩, ⟨[7, 8]⟩, ⟨[9, 10]⟩] "bn3" =
      Except.ok
        { param_shape := [2],
          scale_init := BnInit.tensor [7, 8],
          bias_init := BnInit.tensor [9, 10],
          mean_init := BnInit.tensor ([1, 2].map (fun x => x * bn_inv_scale 2)),
          var_init := BnInit.tensor ([3, 4].map (fun x => x * bn_inv_scale 2)),
          epsilon := 1 / 100000, name := "bn3" }) ∧
    (ApiSetup.batch_normalization [2] (1 / 100000)
        [⟨[1, 2]⟩, ⟨[3, 4]⟩, ⟨[2]⟩] "bn3" =
      Except.ok
        { param_shape := [2],
          scale_init := BnInit.scalar (bn_inv_scale 2),
          bias_init := BnInit.scalar 0,
          mean_init := BnInit.tensor ([1, 2].map (fun x => x * bn_inv_scale 2)),
          var_init := BnInit.tensor ([3, 4].map (fun x => x * bn_inv_scale 2)),
          epsilon := 1 / 100000, name := "bn3" }) :=
  bn_five_vs_three_tensor_form (1 / 100000) "bn3"
    ⟨[1, 2]⟩ ⟨[3, 4]⟩ ⟨[2]⟩ ⟨[7, 8]⟩ ⟨[9, 10]⟩ 2 [] rfl 2 []

/-- Witness for C10: a concrete dense descriptor with no pretrained tensors
fails with the unbound-local error, one with a single tensor fails with the
assertion error. -/
theorem dense_binding_requires_two_witness :
    ApiSetup.dense [3, 4, 4] 10 true [] "fc1" =
      Except.error "UnboundLocalError: local variable scale_init referenced before assignment" ∧
    ApiSetup.dense [3, 4, 4] 10 true [⟨[1, 2]⟩] "fc1" =
      Except.error "AssertionError: dense layer layer receives two inputs (scale/bias)" :=
  ⟨(dense_binding_requires_two [3, 4, 4] 10 true [] "fc1" (by decide)).1 rfl,
   (dense_binding_requires_two [3, 4, 4] 10 true [⟨[1, 2]⟩] "fc1" (by decide)).2.1
     (by decide) (by decide)⟩

theorem blockConv_ok (output : ℕ) (kernel_init : Option (List ℚ))
    (bias_init : Option (List ℕ × List ℚ)) (group : ℕ) (name : String)
    (r : ConvResult)
    (hok : BlockApiSetup.convolution output kernel_init bias_init group name =
      Except.ok r) :
    r.bias = bias_init.map (fun bi => ⟨[output], bi.1, bi.2⟩) := by
  cases kernel_init with
  | none =>
    simp only [BlockApiSetup.convolution] at hok
    split at hok <;> cases hok
  | some ki =>
    simp only [BlockApiSetup.convolution] at hok
    split at hok
    · cases hok
      rfl
    · cases hok

theorem conv_bias_init_char (need_bias : Bool) (output_channel : ℕ)
    (parameter_tensor : List UniTensor) (o : Option (List ℕ × List ℚ))
    (hok : conv_bias_init need_bias output_channel parameter_tensor =
      Except.ok o) :
    (o.isSome ↔ (need_bias = true ∧ parameter_tensor ≠ [])) ∧
    (∀ p, o = some p → p.1 = [output_channel, 1, 1] ∧
      ∃ bt, parameter_tensor.get? 1 = some bt ∧ p.2 = bt.data) := by
  unfold conv_bias_init at hok
  by_cases hc : need_bias = true ∧ parameter_tensor ≠ []
  · rw [if_pos hc] at hok
    split at hok
    · cases hok
    · rename_i bt hbt
      split at hok
      · cases hok
      · rename_i d hre
        cases hok
        have hd : d = bt.data := by
          unfold npReshape at hre
          split at hre
          · cases hre
            rfl
          · cases hre
        refine ⟨by simpa using hc, ?_⟩
        rintro p hp
        cases hp
        exact ⟨rfl, bt, hbt, hd⟩
  · rw [if_neg hc] at hok
    cases hok
    constructor
    · simpa using hc
    · rintro p hp
      cases hp

/-- C7 counterexample: with `need_bias = True` but an empty
`parameter_tensor` list the convolution builder creates no bias parameter at
all — it fails outright, because the mandatory pretrained kernel initial
value is `None` and `weights_parameter` evaluates `None.copy()` — refuting
"a bias parameter is created if and only if the descriptor specifies a bias
requirement". -/
theorem conv_bias_cex :
    ({ output := 8, kernel := [3, 3], stride := [1, 1], auto_pad := true,
       need_bias := true, group := 1, dilation := [1, 1] } : ConvParams).need_bias = true ∧
    ApiSetup.convolution
        { output := 8, kernel := [3, 3], stride := [1, 1], auto_pad := true,
          need_bias := true, group := 1, dilation := [1, 1] } [] "conv1" =
      Except.error "AttributeError: NoneType object has no attribute copy" :=
  ⟨rfl, rfl⟩

/-- C7 (amended): whenever the convolution builder returns a handle, a bias
parameter was created if and only if the descriptor specifies `need_bias`
AND pretrained tensors are present (with none present the builder fails
before any bias could be created, the kernel initial value being mandatory);
when created, the bias parameter has shape `(output_channels,)` and its
pretrained initial value is `parameter_tensor[1]`'s data reshaped to
`(output_channels, 1, 1)`. -/
theorem conv_bias_characterization (params : ConvParams)
    (parameter_tensor : List UniTensor) (op_name : String) (r : ConvResult)
    (hok : ApiSetup.convolution params parameter_tensor op_name = Except.ok r) :
    (r.bias.isSome ↔ (params.need_bias = true ∧ parameter_tensor ≠ [])) ∧
    (∀ bp, r.bias = some bp →
      bp.shape = [params.output] ∧ bp.init_shape = [params.output, 1, 1] ∧
      ∃ bt, parameter_tensor.get? 1 = some bt ∧ bp.init_data = bt.data) := by
  unfold ApiSetup.convolution at hok
  cases hbi : conv_bias_init params.need_bias params.output parameter_tensor with
  | error e =>
    rw [hbi] at hok
    exact absurd hok (by simp [Except.bind])
  | ok bias_init =>
    rw [hbi, except_bind_ok] at hok
    have hrb := blockConv_ok _ _ _ _ _ _ hok
    have hchar := conv_bias_init_char _ _ _ _ hbi
    constructor
    · rw [hrb]
      cases bias_init with
      | none => simpa using hchar.1
      | some bi => simpa using hchar.1
    · intro bp hbp
      rw [hrb] at hbp
      cases bias_init with
      | none => simp at hbp
      | some bi =>
        obtain ⟨h1, bt, hbt, h2⟩ := hchar.2 bi rfl
        have hbp' : bp = ⟨[params.output], bi.1, bi.2⟩ := by
          have hs : some (BiasParam.mk [params.output] bi.1 bi.2) = some bp := hbp
          exact (Option.some_inj.mp hs).symm
        subst hbp'
        exact ⟨rfl, h1, bt, hbt, h2⟩

/-- Witness for C7's amended theorem: a concrete convolution descriptor with
`need_bias` and two pretrained tensors creates the bias parameter with the
reshaped initial value. -/
theorem conv_bias_characterization_witness :
    (convWitnessResult.bias.isSome ↔
      (convWitnessParams.need_bias = true ∧ convWitnessTensors ≠ [])) ∧
    (∀ bp, convWitnessResult.bias = some bp →
      bp.shape = [convWitnessParams.output] ∧
      bp.init_shape = [convWitnessParams.output, 1, 1] ∧
      ∃ bt, convWitnessTensors.get? 1 = some bt ∧ bp.init_data = bt.data) :=
  conv_bias_characterization convWitnessParams convWitnessTensors "conv2"
    convWitnessResult rfl

/-- C8 counterexample: the pairwise builders do NOT validate that exactly
two inputs are supplied — here `plus` is given three resolved inputs and,
instead of rejecting the list, invokes the native op on the first two and
succeeds, refuting the claim that a wrong-arity list is rejected before the
native op is invoked. -/
theorem pairwise_arity_cex :
    ¬ (∀ (op_name : String) (inputs : List GraphNode) (r : GraphNode),
        ApiSetup.plus op_name inputs = Except.ok r → inputs.length = 2) := by
  intro hclaim
  have h3 := hclaim "p" [GraphNode.var "a", GraphNode.var "b", GraphNode.var "c"]
    (GraphNode.plusNode (GraphNode.var "a") (GraphNode.var "b") "p") rfl
  simp at h3

/-- C8 (amended): the pairwise builders (`plus`,
`cross_entropy_with_softmax`, `classification_error`) perform no arity
validation: they read exactly the first two resolved inputs, so a list with
fewer than two inputs fails with an IndexError before the native op is
invoked, while a list with two or more inputs has the native op invoked on
its first two inputs, extra inputs being silently ignored. -/
theorem pairwise_first_two (op_name : String) (top_n : ℕ)
    (inputs : List GraphNode) :
    (inputs.length < 2 →
      ApiSetup.plus op_name inputs = Except.error "IndexError: list index out of range" ∧
      ApiSetup.cross_entropy_with_softmax op_name inputs =
        Except.error "IndexError: list index out of range" ∧
      ApiSetup.classification_error op_name top_n inputs =
        Except.error "IndexError: list index out of range") ∧
    (∀ a b rest, inputs = a :: b :: rest →
      ApiSetup.plus op_name inputs = Except.ok (GraphNode.plusNode a b op_name) ∧
      ApiSetup.cross_entropy_with_softmax op_name inputs =
        Except.ok (GraphNode.crossEntropyNode a b op_name) ∧
      ApiSetup.classification_error op_name top_n inputs =
        Except.ok (GraphNode.classificationErrorNode a b top_n op_name)) := by
  constructor
  · intro hlen
    cases inputs with
    | nil => exact ⟨rfl, rfl, rfl⟩
    | cons a t =>
      cases t with
      | nil => exact ⟨rfl, rfl, rfl⟩
      | cons b t2 =>
        simp only [List.length_cons] at hlen
        omega
  · rintro a b rest rfl
    exact ⟨rfl, rfl, rfl⟩

/-- Witness for C8's amended theorem: one too-short input list fails with an
IndexError, and one three-input list invokes the native op on the first two. -/
theorem pairwise_first_two_witness :
    ApiSetup.plus "p" [GraphNode.var "a"] =
      Except.error "IndexError: list index out of range" ∧
    ApiSetup.plus "p" [GraphNode.var "a", GraphNode.var "b", GraphNode.var "c"] =
      Except.ok (GraphNode.plusNode (GraphNode.var "a") (GraphNode.var "b") "p") :=
  ⟨((pairwise_first_two "p" 1 [GraphNode.var "a"]).1 (by decide)).1,
   ((pairwise_first_two "p" 1
      [GraphNode.var "a", GraphNode.var "b", GraphNode.var "c"]).2
      (GraphNode.var "a") (GraphNode.var "b") [GraphNode.var "c"] rfl).1⟩

/-- C9 counterexample: a missing mean file is NOT handled gracefully — with
a present index file and `mean_file = None`, `eval_model` does not emit a
diagnostic and return early; it proceeds to reader construction (whose
errors propagate uncaught), refuting the claim for the mean-file half. -/
theorem eval_model_cex :
    (∀ lines, eval_model { index_map := some "index.txt", mean_file := none } ≠
        EvalOutcome.earlyExit lines) ∧
    eval_model { index_map := some "index.txt", mean_file := none } =
      EvalOutcome.proceed ["start eval...", "launch map and mean files"]
        "index.txt" none := by
  refine ⟨?_, rfl⟩
  intro lines h
  simp [eval_model] at h

/-- C9 (amended): only the index file is checked: with `index_map` missing,
`eval_model` emits the diagnostic line and returns early without raising and
with no other effect than the three stdout lines; with a present index file
the routine proceeds to reader construction with whatever `mean_file` holds
— the method has no handler, so construction-time errors (including those
caused by a missing mean file) propagate uncaught. -/
theorem eval_model_missing_index_early_return (solver : EvalSolver) :
    (solver.index_map = none →
      eval_model solver = EvalOutcome.earlyExit
        ["start eval...", "launch map and mean files",
         "fail to locate index files, eval exit."]) ∧
    (∀ map_file, solver.index_map = some map_file →
      eval_model solver = EvalOutcome.proceed
        ["start eval...", "launch map and mean files"] map_file solver.mean_file) := by
  constructor
  · intro h
    simp [eval_model, h]
  · intro mf h
    simp [eval_model, h]

theorem getD_set_self {α : Type} (l : List α) (i : ℕ) (x d : α)
    (h : i < l.length) : (l.set i x).getD i d = x := by
  rw [getD_eq_elem _ _ _ (by rw [List.length_set]; exact h)]
  exact List.getElem_set_self _

theorem getD_set_ne {α : Type} (l : List α) (i j : ℕ) (x d : α) (h : i ≠ j) :
    (l.set i x).getD j d = l.getD j d := by
  rw [List.getD_eq_getElem?_getD, List.getD_eq_getElem?_getD,
    List.getElem?_set_ne h]

theorem range_map_getD {α : Type} (l : List α) (d : α) :
    (List.range l.length).map (fun p => l.getD p d) = l := by
  apply List.ext_getElem
  · simp
  intro i h1 h2
  simp only [List.getElem_map, List.getElem_range]
  rw [getD_eq_elem _ _ _ h2]

theorem le_getD_of_pairwise_lt_aux (l : List ℕ) (m : ℕ)
    (hm : ∀ y ∈ l, m ≤ y) (hl : l.Pairwise (· < ·)) :
    ∀ i, i < l.length → m + i ≤ l.getD i 0 := by
  induction l generalizing m with
  | nil => intro i hi; simp at hi
  | cons x xs ih =>
    intro i hi
    cases i with
    | zero => simpa using hm x (by simp)
    | succ i =>
      have hx : ∀ y ∈ xs, x < y := by
        intro y hy
        exact (List.pairwise_cons.mp hl).1 y hy
      have hstep := ih (x + 1) (fun y hy => hx y hy) (List.pairwise_cons.mp hl).2
        i (by simpa using hi)
      have hmx : m ≤ x := hm x (by simp)
      simp only [List.getD_cons_succ]
      omega

theorem le_getD_of_pairwise_lt (l : List ℕ) (hl : l.Pairwise (· < ·))
    (i : ℕ) (hi : i < l.length) : i ≤ l.getD i 0 := by
  have := le_getD_of_pairwise_lt_aux l 0 (fun y _ => Nat.zero_le y) hl i hi
  omega

theorem finalPositions_adjusted (l : List ℕ) (hl : l.Pairwise (· < ·)) :
    finalPositions (l.enum.map (fun p => p.2 - p.1)) = l := by
  apply List.ext_getElem
  · simp [finalPositions]
  intro i h1 h2
  simp only [finalPositions, List.getElem_map, List.getElem_enum]
  have := le_getD_of_pairwise_lt l hl i h2
  rw [getD_eq_elem _ _ _ h2] at this
  omega

theorem pred_ceil_div (d j : ℕ) (hd : 0 < d) (hj : j % d = 0) :
    (j + d - 1) / d = j / d := by
  obtain ⟨q, rfl⟩ := Nat.dvd_of_mod_eq_zero hj
  rw [show d * q + d - 1 = d * q + (d - 1) by omega, Nat.mul_add_div hd,
    Nat.div_eq_of_lt (by omega), Nat.add_zero, Nat.mul_div_cancel_left _ hd]

theorem count_mod_ne_zero_range (d : ℕ) (hd : 0 < d) (m : ℕ) :
    ((List.range m).filter (fun x => decide (¬ x % d = 0))).length =
      m - (m + d - 1) / d := by
  induction m with
  | zero => simp
  | succ m ih =>
    rw [List.range_succ, List.filter_append, List.length_append, ih]
    have hceil_le : (m + d - 1) / d ≤ m := by
      rcases Nat.eq_zero_or_pos m with hm0 | hm0
      · subst hm0
        rw [Nat.zero_add, Nat.div_eq_of_lt (by omega)]
      · have h2 : m * 1 ≤ m * d := Nat.mul_le_mul_left m hd
        have h1 : m + d - 1 < (m + 1) * d := by
          rw [Nat.succ_mul]
          omega
        have := (Nat.div_lt_iff_lt_mul hd).2 h1
        omega
    by_cases hm : m % d = 0
    · have h1 : (List.filter (fun x => decide (¬ x % d = 0)) [m]).length = 0 := by
        simp [List.filter_cons, hm]
      have h2 : (m + 1 + d - 1) / d = (m + d - 1) / d + 1 := by
        obtain ⟨q, rfl⟩ := Nat.dvd_of_mod_eq_zero hm
        have ha : (d * q + d - 1) / d = q := by
          rw [show d * q + d - 1 = d * q + (d - 1) by omega, Nat.mul_add_div hd,
            Nat.div_eq_of_lt (by omega), Nat.add_zero]
        have hb : (d * q + 1 + d - 1) / d = q + 1 := by
          rw [show d * q + 1 + d - 1 = d * (q + 1) by rw [Nat.mul_add, Nat.mul_one]; omega,
            Nat.mul_div_cancel_left _ hd]
        rw [ha, hb]
      omega
    · have h1 : (List.filter (fun x => decide (¬ x % d = 0)) [m]).length = 1 := by
        simp [List.filter_cons, hm]
      have h2 : (m + 1 + d - 1) / d = (m + d - 1) / d := by
        have hr1 : 1 ≤ m % d := Nat.one_le_iff_ne_zero.mpr hm
        have hrd : m % d < d := Nat.mod_lt _ hd
        have hqr := Nat.div_add_mod m d
        have e1 : m + 1 + d - 1 = d * (m / d) + (m % d + d) := by omega
        have e2 : m + d - 1 = d * (m / d) + (m % d + d - 1) := by omega
        have hc : (m % d + d) / d = 1 :=
          @Nat.div_eq_of_lt_le 1 d (m % d + d) (by omega) (by omega)
        have hc2 : (m % d + d - 1) / d = 1 :=
          @Nat.div_eq_of_lt_le 1 d (m % d + d - 1) (by omega) (by omega)
        rw [e1, e2, Nat.mul_add_div hd, Nat.mul_add_div hd, hc, hc2]
      omega

theorem gap_length (k d : ℕ) (hk : 1 ≤ k) (hd : 0 < d) :
    ((List.range ((k - 1) * d + 1)).filter
      (fun x => decide (¬ x % d = 0))).length = (k - 1) * d + 1 - k := by
  rw [count_mod_ne_zero_range d hd]
  congr 1
  rw [show (k - 1) * d + 1 + d - 1 = (k - 1) * d + d by omega,
    show (k - 1) * d + d = ((k - 1) + 1) * d by ring,
    show (k - 1) + 1 = k by omega, Nat.mul_div_cancel _ hd]

theorem mem_gap_iff (k d j : ℕ) :
    j ∈ (List.range ((k - 1) * d + 1)).filter (fun x => decide (¬ x % d = 0)) ↔
      j < (k - 1) * d + 1 ∧ ¬ j % d = 0 := by
  simp [List.mem_filter, List.mem_range]

theorem gap_pairwise (k d : ℕ) :
    ((List.range ((k - 1) * d + 1)).filter
      (fun x => decide (¬ x % d = 0))).Pairwise (· < ·) :=
  List.Pairwise.filter _ (List.sorted_lt_range _)

theorem mem_kernel_sequence (k d x : ℕ) (hk : 1 ≤ k) (hd : 0 < d)
    (hx : x < (k - 1) * d + 1) :
    x ∈ (List.range k).map (fun y => y * d) ↔ x % d = 0 := by
  simp only [List.mem_map, List.mem_range]
  constructor
  · rintro ⟨y, hy, rfl⟩
    exact Nat.mul_mod_left y d
  · intro hmod
    refine ⟨x / d, ?_, Nat.div_mul_cancel (Nat.dvd_of_mod_eq_zero hmod)⟩
    have h1 : x ≤ (k - 1) * d := by omega
    have h2 : x / d ≤ k - 1 := by
      calc x / d ≤ (k - 1) * d / d := Nat.div_le_div_right h1
        _ = k - 1 := Nat.mul_div_cancel _ hd
    omega

theorem dilation_kernel_getD (kernel dilation : List ℕ) (a : ℕ)
    (ha : a < kernel.length) (hb : a < dilation.length) :
    (dilation_kernel kernel dilation).getD a 0 =
      (kernel.getD a 0 - 1) * dilation.getD a 0 + 1 := by
  have hlen : a < ((kernel.zip dilation).map
      (fun kd => (kd.1 - 1) * kd.2 + 1)).length := by
    rw [List.length_map, List.length_zip]
    omega
  unfold dilation_kernel
  rw [getD_eq_elem _ _ _ hlen, getD_eq_elem _ _ _ ha, getD_eq_elem _ _ _ hb]
  simp [List.getElem_zip]

theorem insert_lines_eq_gap (kernel dilation : List ℕ) (a : ℕ)
    (ha : a < kernel.length) (hb : a < dilation.length)
    (hk : 1 ≤ kernel.getD a 0) (hd : 0 < dilation.getD a 0) :
    insert_lines_for kernel dilation a =
      (List.range ((kernel.getD a 0 - 1) * dilation.getD a 0 + 1)).filter
        (fun x => decide (¬ x % dilation.getD a 0 = 0)) := by
  unfold insert_lines_for
  rw [dilation_kernel_getD kernel dilation a ha hb]
  apply List.filter_congr
  intro x hx
  have hx' : x < (kernel.getD a 0 - 1) * dilation.getD a 0 + 1 :=
    List.mem_range.mp hx
  have hiff := mem_kernel_sequence (kernel.getD a 0) (dilation.getD a 0) x hk hd hx'
  simp only [decide_eq_decide]
  exact not_congr hiff

theorem count_gaps_below (k d j : ℕ) (hd : 0 < d)
    (hj : j < (k - 1) * d + 1) (hmod : j % d = 0) :
    (((List.range ((k - 1) * d + 1)).filter
      (fun x => decide (¬ x % d = 0))).filter
        (fun f => decide (f < j))).length = j - j / d := by
  have hstep : ((List.range ((k - 1) * d + 1)).filter
      (fun x => decide (¬ x % d = 0))).filter (fun f => decide (f < j)) =
      (List.range j).filter (fun x => decide (¬ x % d = 0)) := by
    rw [List.filter_filter]
    rw [show (k - 1) * d + 1 = j + ((k - 1) * d + 1 - j) by omega,
      List.range_add, List.filter_append]
    have h2 : ((List.range ((k - 1) * d + 1 - j)).map (fun i => j + i)).filter
        (fun a => decide (a < j) && decide (¬ a % d = 0)) = [] := by
      rw [List.filter_eq_nil_iff]
      intro a ha
      obtain ⟨i, hi, rfl⟩ := List.mem_map.mp ha
      simp
    rw [h2, List.append_nil]
    apply List.filter_congr
    intro x hx
    have hxj := List.mem_range.mp hx
    simp [hxj]
  rw [hstep, count_mod_ne_zero_range d hd, pred_ceil_div d j hd hmod]

theorem npInsertZeros_gap_shape (arr : NdArray) (k d : ℕ) (hk : 1 ≤ k)
    (hd : 0 < d) (axis : ℕ) :
    (npInsertZeros arr
      (((List.range ((k - 1) * d + 1)).filter
        (fun x => decide (¬ x % d = 0))).enum.map (fun p => p.2 - p.1))
      axis).shape =
      arr.shape.set axis (arr.shape.getD axis 0 + ((k - 1) * d + 1 - k)) := by
  unfold npInsertZeros
  rw [List.length_map, List.enum_length, gap_length k d hk hd]

theorem npInsertZeros_gap_val (arr : NdArray) (k d : ℕ)
    (hd : 0 < d) (axis : ℕ) (idx : List ℕ)
    (hj : idx.getD axis 0 < (k - 1) * d + 1) :
    (npInsertZeros arr
        (((List.range ((k - 1) * d + 1)).filter
          (fun x => decide (¬ x % d = 0))).enum.map (fun p => p.2 - p.1))
        axis).val idx =
      if idx.getD axis 0 % d = 0 then
        arr.val (idx.set axis (idx.getD axis 0 / d))
      else 0 := by
  have hfp : finalPositions
      (((List.range ((k - 1) * d + 1)).filter
        (fun x => decide (¬ x % d = 0))).enum.map (fun p => p.2 - p.1)) =
      (List.range ((k - 1) * d + 1)).filter (fun x => decide (¬ x % d = 0)) :=
    finalPositions_adjusted _ (gap_pairwise k d)
  unfold npInsertZeros
  simp only [hfp]
  by_cases hmem : idx.getD axis 0 ∈
      (List.range ((k - 1) * d + 1)).filter (fun x => decide (¬ x % d = 0))
  · have hmod : ¬ idx.getD axis 0 % d = 0 := ((mem_gap_iff k d _).mp hmem).2
    rw [if_pos hmem, if_neg hmod]
  · have hmod : idx.getD axis 0 % d = 0 := by
      by_contra hmod
      exact hmem ((mem_gap_iff k d _).mpr ⟨hj, hmod⟩)
    rw [if_neg hmem, if_pos hmod,
      count_gaps_below k d (idx.getD axis 0) hd hj hmod]
    have hdle := Nat.div_le_self (idx.getD axis 0) d
    rw [Nat.sub_sub_self hdle]

theorem expandPref_succ (kernel dilation : List ℕ) (init : NdArray) (m : ℕ) :
    expandPref kernel dilation init (m + 1) =
      npInsertZeros (expandPref kernel dilation init m)
        (adjusted_insert_lines kernel dilation m)
        (init.shape.length - m - 1) := by
  unfold expandPref
  rw [List.range_succ, List.foldl_append]
  rfl

theorem shrinkUpTo_zero (dilation : List ℕ) (n : ℕ) (idx : List ℕ)
    (hlen : idx.length = n) : shrinkUpTo dilation n 0 idx = idx := by
  unfold shrinkUpTo
  have hmap : (List.range idx.length).map (fun p =>
      if n - 0 ≤ p then idx.getD p 0 / dilation.getD (n - 1 - p) 0
      else idx.getD p 0) =
      (List.range idx.length).map (fun p => idx.getD p 0) := by
    apply List.map_congr_left
    intro p hp
    have h1 := List.mem_range.mp hp
    rw [if_neg (by omega)]
  rw [hmap, range_map_getD]

theorem shrinkUpTo_set (dilation : List ℕ) (n m : ℕ) (idx : List ℕ)
    (hlen : idx.length = n) (hm : m < n) :
    shrinkUpTo dilation n m
        (idx.set (n - 1 - m) (idx.getD (n - 1 - m) 0 / dilation.getD m 0)) =
      shrinkUpTo dilation n (m + 1) idx := by
  unfold shrinkUpTo
  rw [List.length_set]
  apply List.map_congr_left
  intro p hp
  have hpn : p < n := by
    have := List.mem_range.mp hp
    omega
  by_cases hpm : p = n - 1 - m
  · subst hpm
    rw [if_neg (by omega), if_pos (by omega),
      getD_set_self _ _ _ _ (by omega),
      show n - 1 - (n - 1 - m) = m by omega]
  · rw [getD_set_ne _ _ _ _ _ (by omega)]
    by_cases hth : n - m ≤ p
    · rw [if_pos hth, if_pos (by omega)]
    · rw [if_neg hth, if_neg (by omega)]

theorem axis_trivial_of_dk_eq (k d j : ℕ) (hk : 1 ≤ k)
    (heq : (k - 1) * d + 1 = k) (hj : j < k) :
    j % d = 0 ∧ j / d = j := by
  rcases Nat.lt_or_ge k 2 with hk2 | hk2
  · have hj0 : j = 0 := by omega
    subst hj0
    exact ⟨Nat.zero_mod d, Nat.zero_div d⟩
  · have hd1 : d = 1 := by
      have h2 : (k - 1) * d = (k - 1) * 1 := by rw [Nat.mul_one]; omega
      exact Nat.eq_of_mul_eq_mul_left (by omega) h2
    subst hd1
    exact ⟨Nat.mod_one j, Nat.div_one j⟩

theorem expandPref_inv (kernel dilation : List ℕ) (init : NdArray) (r n : ℕ)
    (hkr : kernel.length = r) (hdr : dilation.length = r)
    (hn : init.shape.length = n) (hrn : r ≤ n)
    (hshape : ∀ a, a < r → init.shape.getD (n - 1 - a) 0 = kernel.getD a 0)
    (hk : ∀ a, a < r → 1 ≤ kernel.getD a 0)
    (hd : ∀ a, a < r → 1 ≤ dilation.getD a 0) :
    ∀ m, m ≤ r →
    ((expandPref kernel dilation init m).shape.length = n) ∧
    (∀ a, a < m →
      (expandPref kernel dilation init m).shape.getD (n - 1 - a) 0 =
        (dilation_kernel kernel dilation).getD a 0) ∧
    (∀ p, p < n → (∀ a, a < m → p ≠ n - 1 - a) →
      (expandPref kernel dilation init m).shape.getD p 0 =
        init.shape.getD p 0) ∧
    (∀ idx : List ℕ, idx.length = n →
      (∀ a, a < m →
        idx.getD (n - 1 - a) 0 < (dilation_kernel kernel dilation).getD a 0) →
      (expandPref kernel dilation init m).val idx =
        if ∀ a, a < m → idx.getD (n - 1 - a) 0 % dilation.getD a 0 = 0
        then init.val (shrinkUpTo dilation n m idx) else 0) := by
  intro m
  induction m with
  | zero =>
    intro _
    refine ⟨hn, fun a ha => absurd ha (Nat.not_lt_zero a),
      fun p _ _ => rfl, ?_⟩
    intro idx hlen hbound
    rw [if_pos (fun a ha => absurd ha (Nat.not_lt_zero a))]
    have h0 : expandPref kernel dilation init 0 = init := rfl
    rw [h0, shrinkUpTo_zero dilation n idx hlen]
  | succ m ih =>
    intro hm1
    have hm : m ≤ r := by omega
    obtain ⟨ihlen, ihproc, ihun, ihval⟩ := ih hm
    have hmr : m < r := by omega
    have hkm : 1 ≤ kernel.getD m 0 := hk m hmr
    have hdm : 0 < dilation.getD m 0 := hd m hmr
    have hdkm : (dilation_kernel kernel dilation).getD m 0 =
        (kernel.getD m 0 - 1) * dilation.getD m 0 + 1 :=
      dilation_kernel_getD kernel dilation m (by omega) (by omega)
    have hgap : adjusted_insert_lines kernel dilation m =
        ((List.range ((kernel.getD m 0 - 1) * dilation.getD m 0 + 1)).filter
          (fun x => decide (¬ x % dilation.getD m 0 = 0))).enum.map
          (fun p => p.2 - p.1) := by
      unfold adjusted_insert_lines
      rw [insert_lines_eq_gap kernel dilation m (by omega) (by omega) hkm hdm]
    have hsucc := expandPref_succ kernel dilation init m
    rw [hgap, hn] at hsucc
    have hpos : n - m - 1 = n - 1 - m := by omega
    rw [hpos] at hsucc
    have hposlt : n - 1 - m < n := by omega
    have hshape_old :
        (expandPref kernel dilation init m).shape.getD (n - 1 - m) 0 =
          kernel.getD m 0 := by
      rw [ihun (n - 1 - m) hposlt (fun a ha => by omega), hshape m hmr]
    have hshape_succ : (expandPref kernel dilation init (m + 1)).shape =
        (expandPref kernel dilation init m).shape.set (n - 1 - m)
          ((expandPref kernel dilation init m).shape.getD (n - 1 - m) 0 +
            ((kernel.getD m 0 - 1) * dilation.getD m 0 + 1 - kernel.getD m 0)) := by
      rw [hsucc]
      exact npInsertZeros_gap_shape _ _ _ hkm hdm _
    have hknew :
        (expandPref kernel dilation init m).shape.getD (n - 1 - m) 0 +
          ((kernel.getD m 0 - 1) * dilation.getD m 0 + 1 - kernel.getD m 0) =
          (kernel.getD m 0 - 1) * dilation.getD m 0 + 1 := by
      rw [hshape_old]
      have hle : kernel.getD m 0 - 1 ≤ (kernel.getD m 0 - 1) * dilation.getD m 0 :=
        Nat.le_mul_of_pos_right _ hdm
      omega
    refine ⟨?_, ?_, ?_, ?_⟩
    · rw [hshape_succ, List.length_set, ihlen]
    · intro a ha
      rw [hshape_succ]
      by_cases ham : a = m
      · subst ham
        rw [getD_set_self _ _ _ _ (by rw [ihlen]; omega), hknew, hdkm]
      · rw [getD_set_ne _ _ _ _ _ (by omega)]
        exact ihproc a (by omega)
    · intro p hp hpa
      have hpm := hpa m (by omega)
      rw [hshape_succ, getD_set_ne _ _ _ _ _ (by omega)]
      exact ihun p hp (fun a ha => hpa a (by omega))
    · intro idx hlen hbound
      rw [hsucc]
      have hjb : idx.getD (n - 1 - m) 0 <
          (kernel.getD m 0 - 1) * dilation.getD m 0 + 1 := by
        have := hbound m (by omega)
        rw [hdkm] at this
        exact this
      rw [npInsertZeros_gap_val _ _ _ hdm _ idx hjb]
      by_cases hmod : idx.getD (n - 1 - m) 0 % dilation.getD m 0 = 0
      · rw [if_pos hmod]
        have hlen' : (idx.set (n - 1 - m)
            (idx.getD (n - 1 - m) 0 / dilation.getD m 0)).length = n := by
          rw [List.length_set]
          exact hlen
        have hbound' : ∀ a, a < m →
            (idx.set (n - 1 - m)
              (idx.getD (n - 1 - m) 0 / dilation.getD m 0)).getD (n - 1 - a) 0 <
              (dilation_kernel kernel dilation).getD a 0 := by
          intro a ha
          rw [getD_set_ne _ _ _ _ _ (by omega)]
          exact hbound a (by omega)
        rw [ihval _ hlen' hbound']
        have hgd : ∀ a, a < m →
            (idx.set (n - 1 - m)
              (idx.getD (n - 1 - m) 0 / dilation.getD m 0)).getD (n - 1 - a) 0 =
              idx.getD (n - 1 - a) 0 := by
          intro a ha
          rw [getD_set_ne _ _ _ _ _ (by omega)]
        by_cases hall : ∀ a, a < m → idx.getD (n - 1 - a) 0 % dilation.getD a 0 = 0
        · rw [if_pos (fun a ha => by rw [hgd a ha]; exact hall a ha),
            if_pos (fun a ha => by
              by_cases ham : a = m
              · subst ham
                exact hmod
              · exact hall a (by omega))]
          rw [shrinkUpTo_set dilation n m idx hlen (by omega)]
        · push_neg at hall
          obtain ⟨a0, ha0, hne0⟩ := hall
          rw [if_neg (fun hcon => hne0 (by
              have hc0 := hcon a0 ha0
              rw [hgd a0 ha0] at hc0
              exact hc0)),
            if_neg (fun hcon => hne0 (hcon a0 (by omega)))]
      · rw [if_neg hmod, if_neg (fun hcon => hmod (hcon m (by omega)))]

theorem shrinkUpTo_eq_self (kernel dilation : List ℕ) (r n : ℕ)
    (hkr : kernel.length = r) (hdr : dilation.length = r) (hrn : r ≤ n)
    (hk : ∀ a, a < r → 1 ≤ kernel.getD a 0)
    (heq : dilation_kernel kernel dilation = kernel)
    (idx : List ℕ) (hlen : idx.length = n)
    (hbound : ∀ a, a < r → idx.getD (n - 1 - a) 0 < kernel.getD a 0) :
    shrinkUpTo dilation n r idx = idx := by
  unfold shrinkUpTo
  have hmap : (List.range idx.length).map (fun p =>
      if n - r ≤ p then idx.getD p 0 / dilation.getD (n - 1 - p) 0
      else idx.getD p 0) =
      (List.range idx.length).map (fun p => idx.getD p 0) := by
    apply List.map_congr_left
    intro p hp
    have hpn : p < n := by
      have := List.mem_range.mp hp
      omega
    by_cases hth : n - r ≤ p
    · rw [if_pos hth]
      have har : n - 1 - p < r := by omega
      have hpa : n - 1 - (n - 1 - p) = p := by omega
      have hdk : (kernel.getD (n - 1 - p) 0 - 1) * dilation.getD (n - 1 - p) 0 + 1 =
          kernel.getD (n - 1 - p) 0 := by
        rw [← dilation_kernel_getD kernel dilation (n - 1 - p) (by omega) (by omega),
          heq]
      have hb : idx.getD p 0 < kernel.getD (n - 1 - p) 0 := by
        have := hbound (n - 1 - p) har
        rw [hpa] at this
        exact this
      exact (axis_trivial_of_dk_eq _ _ _ (hk _ har) hdk hb).2
    · rw [if_neg hth]
  rw [hmap, range_map_getD]

/-- C5: with spatial rank `r` (kernel axis `a` is index position `n - 1 - a`
of an `n`-axis kernel tensor), when every dilation factor is 1 the expansion
returns the original kernel tensor unchanged; and for any dilation factors
at least 1, one exceeding 1, the expansion has effective spatial extent
`(k - 1) * d + 1` per kernel axis with all other axes preserved, and every
in-range multi-index reads the original tap at the stride-`d` positions
(all spatial indices divisible by their dilation factor, divided through)
and zero everywhere else. -/
theorem dilated_kernel_expansion (kernel dilation : List ℕ) (init : NdArray)
    (r n : ℕ) (hkr : kernel.length = r) (hdr : dilation.length = r)
    (hn : init.shape.length = n) (hrn : r ≤ n)
    (hshape : ∀ a, a < r → init.shape.getD (n - 1 - a) 0 = kernel.getD a 0)
    (hk : ∀ a, a < r → 1 ≤ kernel.getD a 0) :
    ((∀ x ∈ dilation, x = 1) →
      weights_parameter_used_init kernel dilation init = init) ∧
    ((∀ x ∈ dilation, 1 ≤ x) → (∃ x ∈ dilation, 1 < x) →
      ((weights_parameter_used_init kernel dilation init).shape.length = n ∧
       (∀ a, a < r →
         (weights_parameter_used_init kernel dilation init).shape.getD
           (n - 1 - a) 0 = (dilation_kernel kernel dilation).getD a 0) ∧
       (∀ p, p < n - r →
         (weights_parameter_used_init kernel dilation init).shape.getD p 0 =
           init.shape.getD p 0) ∧
       (∀ idx : List ℕ, idx.length = n →
         (∀ a, a < r → idx.getD (n - 1 - a) 0 <
           (dilation_kernel kernel dilation).getD a 0) →
         (weights_parameter_used_init kernel dilation init).val idx =
           if ∀ a, a < r → idx.getD (n - 1 - a) 0 % dilation.getD a 0 = 0
           then init.val (shrinkUpTo dilation n r idx) else 0))) := by
  constructor
  · intro hall
    have heq : dilation_kernel kernel dilation = kernel := by
      apply List.ext_getElem
      · unfold dilation_kernel
        rw [List.length_map, List.length_zip, hkr, hdr, Nat.min_self]
      · intro a h1 h2
        rw [← getD_eq_elem _ 0 _ h1, ← getD_eq_elem _ 0 _ h2,
          dilation_kernel_getD kernel dilation a h2 (by rw [hdr]; rw [hkr] at h2; omega)]
        have hd1 : dilation.getD a 0 = 1 := by
          apply hall
          rw [getD_eq_elem _ _ _ (by rw [hdr]; rw [hkr] at h2; omega)]
          exact List.getElem_mem _
        have hk1 : 1 ≤ kernel.getD a 0 := hk a (by rw [hkr] at h2; omega)
        rw [hd1, Nat.mul_one]
        omega
    unfold weights_parameter_used_init
    rw [if_pos heq]
  · intro hdil hsome
    have hd : ∀ a, a < r → 1 ≤ dilation.getD a 0 := by
      intro a ha
      apply hdil
      rw [getD_eq_elem _ _ _ (by omega)]
      exact List.getElem_mem _
    by_cases heq : dilation_kernel kernel dilation = kernel
    · unfold weights_parameter_used_init
      rw [if_pos heq]
      refine ⟨hn, ?_, fun p _ => rfl, ?_⟩
      · intro a ha
        rw [heq]
        exact hshape a ha
      · intro idx hlen hbound
        have hbk : ∀ a, a < r → idx.getD (n - 1 - a) 0 < kernel.getD a 0 := by
          intro a ha
          have := hbound a ha
          rw [heq] at this
          exact this
        have htriv : ∀ a, a < r →
            idx.getD (n - 1 - a) 0 % dilation.getD a 0 = 0 := by
          intro a ha
          have hdkd := dilation_kernel_getD kernel dilation a (by omega) (by omega)
          have hdk2 : (kernel.getD a 0 - 1) * dilation.getD a 0 + 1 =
              kernel.getD a 0 := by
            rw [← hdkd, heq]
          exact (axis_trivial_of_dk_eq _ _ _ (hk a ha) hdk2 (hbk a ha)).1
        rw [if_pos htriv,
          shrinkUpTo_eq_self kernel dilation r n hkr hdr hrn hk heq idx hlen hbk]
    · unfold weights_parameter_used_init
      rw [if_neg heq, hdr]
      obtain ⟨l1, l2, l3, l4⟩ := expandPref_inv kernel dilation init r n hkr hdr
        hn hrn hshape hk hd r (Nat.le_refl r)
      refine ⟨l1, l2, ?_, l4⟩
      intro p hp
      exact l3 p (by omega) (fun a ha => by omega)

/-- Witness for C5: kernel size 3, dilation 2 on the single spatial axis of
a concrete `(1, 3)` tensor holding taps 3, 5, 7: the expanded tensor reads
the middle original tap 5 at index 2 (an even, in-range position). -/
theorem dilated_kernel_expansion_witness :
    (weights_parameter_used_init [3] [2] dilWitnessInit).val [0, 2] =
      dilWitnessInit.val (shrinkUpTo [2] 2 1 [0, 2]) ∧
    dilWitnessInit.val (shrinkUpTo [2] 2 1 [0, 2]) = 5 := by
  constructor
  · have h := ((dilated_kernel_expansion [3] [2] dilWitnessInit 1 2 rfl rfl rfl
      (by decide) (by decide) (by decide)).2 (by decide)
      ⟨2, by decide, by decide⟩).2.2.2 [0, 2] rfl (by decide)
    have hcond : ∀ a, a < 1 → ([0, 2] : List ℕ).getD (2 - 1 - a) 0 %
        ([2] : List ℕ).getD a 0 = 0 := by decide
    rw [h, if_pos hcond]
  · decide

theorem dictLookup_placeholder_map (placeholders : List String) (k : String) :
    dictLookup (placeholders.map (fun s => (s, Handle.input s))) k =
      if k ∈ placeholders then some (Handle.input k) else none := by
  induction placeholders with
  | nil => simp [dictLookup]
  | cons p ps ih =>
    simp only [List.map_cons, dictLookup]
    by_cases hpk : p = k
    · subst hpk
      rw [if_pos rfl, if_pos (by simp)]
    · rw [if_neg hpk, ih]
      by_cases hk : k ∈ ps
      · rw [if_pos hk, if_pos (by simp [hk])]
      · rw [if_neg hk, if_neg ?hnotin]
        case hnotin =>
          intro hmem
          rcases List.mem_cons.mp hmem with h1 | h2
          · exact hpk h1.symm
          · exact hk h2

theorem consumeInputs_ok (functions : SymbolTable) (resolve : String → Handle) :
    ∀ (ins : List String) (usused : Finset Handle),
      (∀ x ∈ ins, dictLookup functions x = some (resolve x)) →
      ∃ u, consumeInputs functions ins usused = some (ins.map resolve, u) ∧
        ∀ hh, hh ∈ u ↔ hh ∈ usused ∧ ∀ x ∈ ins, hh ≠ resolve x := by
  intro ins
  induction ins with
  | nil =>
    intro usused _
    exact ⟨usused, rfl, fun hh => by simp⟩
  | cons i rest ih =>
    intro usused hres
    have hi := hres i (by simp)
    have hrest : ∀ x ∈ rest, dictLookup functions x = some (resolve x) :=
      fun x hx => hres x (by simp [hx])
    have hu1mem : ∀ hh,
        hh ∈ (if resolve i ∈ usused then usused.erase (resolve i) else usused) ↔
          hh ∈ usused ∧ hh ≠ resolve i := by
      intro hh
      by_cases hin : resolve i ∈ usused
      · rw [if_pos hin]
        constructor
        · intro h
          exact ⟨(Finset.mem_erase.mp h).2, (Finset.mem_erase.mp h).1⟩
        · intro h
          exact Finset.mem_erase.mpr ⟨h.2, h.1⟩
      · rw [if_neg hin]
        constructor
        · intro h
          refine ⟨h, ?_⟩
          rintro rfl
          exact hin h
        · exact fun h => h.1
    obtain ⟨u, hu, humem⟩ :=
      ih (if resolve i ∈ usused then usused.erase (resolve i) else usused) hrest
    refine ⟨u, ?_, ?_⟩
    · simp only [consumeInputs, hi, hu, List.map_cons]
    · intro hh
      rw [humem hh, hu1mem hh]
      constructor
      · rintro ⟨⟨h1, h2⟩, h3⟩
        refine ⟨h1, ?_⟩
        intro x hx
        rcases List.mem_cons.mp hx with rfl | hx'
        · exact h2
        · exact h3 x hx'
      · rintro ⟨h1, h2⟩
        exact ⟨⟨h1, h2 i (by simp)⟩, fun x hx => h2 x (by simp [hx])⟩

theorem instance_functions_go (cntk_layers : List (String × CntkLayer))
    (placeholders : List String) :
    ∀ (rest done : List String) (st : AsmState),
      wfFind cntk_layers (done ++ rest) = true →
      wfTopo cntk_layers placeholders done rest = true →
      (done ++ rest).Nodup →
      (∀ s ∈ done ++ rest, s ∉ placeholders) →
      (∀ t ∈ done, ∀ x ∈ inputsOf cntk_layers t,
        x ∈ placeholders ∨ x ∈ done) →
      (∀ k, dictLookup st.functions k =
        if k ∈ done then some (Handle.layer k)
        else if k ∈ placeholders then some (Handle.input k) else none) →
      (∀ hh, hh ∈ st.usused_func ↔ ∃ s ∈ done, hh = Handle.layer s ∧
        ∀ t ∈ done, s ∉ inputsOf cntk_layers t) →
      ∃ stF, instance_functions cntk_layers st rest = some stF ∧
        ∀ hh, hh ∈ stF.usused_func ↔ ∃ s ∈ done ++ rest,
          hh = Handle.layer s ∧ ∀ t ∈ done ++ rest, s ∉ inputsOf cntk_layers t := by
  intro rest
  induction rest with
  | nil =>
    intro done st _ _ _ _ _ _ husused
    refine ⟨st, rfl, ?_⟩
    simpa using husused
  | cons c rest ih =>
    intro done st hfind htopo hnodup hdisj hdone hlookup husused
    have htopo2 := htopo
    rw [wfTopo, Bool.and_eq_true] at htopo2
    obtain ⟨htopo_c, htopo_rest⟩ := htopo2
    have hcnotP : c ∉ placeholders := hdisj c (by simp)
    have hcnotdone : c ∉ done := by
      obtain ⟨_, _, hdj⟩ := List.nodup_append.mp hnodup
      intro hcd
      exact hdj hcd (by simp)
    obtain ⟨lc, hlc, hlcname⟩ :
        ∃ lc, dictLookup cntk_layers c = some lc ∧ lc.op_name = c := by
      have hmem : c ∈ done ++ c :: rest := by simp
      have hall := List.all_eq_true.mp hfind c hmem
      cases hdl : dictLookup cntk_layers c with
      | none =>
        rw [hdl] at hall
        exact absurd hall (by simp)
      | some l =>
        rw [hdl] at hall
        exact ⟨l, rfl, by simpa using hall⟩
    have hinputsc : inputsOf cntk_layers c = lc.inputs := by
      unfold inputsOf
      rw [hlc]
    have hins : ∀ x ∈ lc.inputs, x ∈ placeholders ∨ x ∈ done := by
      rw [hlc] at htopo_c
      simpa using htopo_c
    have hres : ∀ x ∈ lc.inputs, dictLookup st.functions x =
        some (if x ∈ done then Handle.layer x else Handle.input x) := by
      intro x hx
      rw [hlookup x]
      by_cases hxd : x ∈ done
      · rw [if_pos hxd, if_pos hxd]
      · rcases hins x hx with hp | hd
        · rw [if_neg hxd, if_pos hp, if_neg hxd]
        · exact absurd hd hxd
    obtain ⟨u, hu, humem⟩ := consumeInputs_ok st.functions
      (fun x => if x ∈ done then Handle.layer x else Handle.input x)
      lc.inputs st.usused_func hres
    have hstep : instance_functions_step cntk_layers st c =
        some { functions := (c, Handle.layer c) :: st.functions,
               usused_func := insert (Handle.layer c) u } := by
      simp only [instance_functions_step, hlc, hu, hlcname]
    have hc_cond : ∀ t ∈ done ++ [c], c ∉ inputsOf cntk_layers t := by
      intro t ht
      rcases List.mem_append.mp ht with htd | htc
      · intro hcin
        rcases hdone t htd c hcin with h | h
        · exact hcnotP h
        · exact hcnotdone h
      · have htc' : t = c := by simpa using htc
        rw [htc', hinputsc]
        intro hcin
        rcases hins c hcin with h | h
        · exact hcnotP h
        · exact hcnotdone h
    have husused' : ∀ hh, hh ∈ insert (Handle.layer c) u ↔
        ∃ s ∈ done ++ [c], hh = Handle.layer s ∧
          ∀ t ∈ done ++ [c], s ∉ inputsOf cntk_layers t := by
      intro hh
      rw [Finset.mem_insert]
      constructor
      · rintro (rfl | hhu)
        · exact ⟨c, by simp, rfl, hc_cond⟩
        · obtain ⟨h1, h2⟩ := (humem hh).mp hhu
          obtain ⟨s, hsdone, rfl, hscond⟩ := (husused hh).mp h1
          refine ⟨s, by simp [hsdone], rfl, ?_⟩
          intro t ht
          rcases List.mem_append.mp ht with htd | htc
          · exact hscond t htd
          · have htc' : t = c := by simpa using htc
            rw [htc', hinputsc]
            intro hsin
            have hrs := h2 s hsin
            rw [if_pos hsdone] at hrs
            exact hrs rfl
      · rintro ⟨s, hs, rfl, hscond⟩
        rcases List.mem_append.mp hs with hsd | hsc
        · right
          rw [humem (Handle.layer s)]
          refine ⟨(husused (Handle.layer s)).mpr
            ⟨s, hsd, rfl, fun t ht => hscond t (by simp [ht])⟩, ?_⟩
          intro x hx
          by_cases hxd : x ∈ done
          · rw [if_pos hxd]
            intro hlay
            have hxs : s = x := by
              injection hlay
            subst hxs
            exact (by
              have := hscond c (by simp)
              rw [hinputsc] at this
              exact this hx)
          · rw [if_neg hxd]
            intro hcon
            exact Handle.noConfusion hcon
        · left
          have hsc' : s = c := by simpa using hsc
          subst hsc'
          rfl
    have hdone' : ∀ t ∈ done ++ [c], ∀ x ∈ inputsOf cntk_layers t,
        x ∈ placeholders ∨ x ∈ done ++ [c] := by
      intro t ht x hx
      rcases List.mem_append.mp ht with htd | htc
      · rcases hdone t htd x hx with h | h
        · exact Or.inl h
        · exact Or.inr (by simp [h])
      · have htc' : t = c := by simpa using htc
        rw [htc', hinputsc] at hx
        rcases hins x hx with h | h
        · exact Or.inl h
        · exact Or.inr (by simp [h])
    have hlookup' : ∀ k,
        dictLookup ((c, Handle.layer c) :: st.functions) k =
          if k ∈ done ++ [c] then some (Handle.layer k)
          else if k ∈ placeholders then some (Handle.input k) else none := by
      intro k
      simp only [dictLookup]
      by_cases hck : c = k
      · subst hck
        rw [if_pos rfl, if_pos (by simp)]
      · rw [if_neg hck, hlookup k]
        by_cases hkd : k ∈ done
        · rw [if_pos hkd, if_pos (by simp [hkd])]
        · have hnotm : ¬ k ∈ done ++ [c] := by
            intro hmem
            rcases List.mem_append.mp hmem with h | h
            · exact hkd h
            · have h' : k = c := by simpa using h
              exact hck h'.symm
          rw [if_neg hkd, if_neg hnotm]
    have hassoc : done ++ c :: rest = (done ++ [c]) ++ rest :=
      List.append_cons done c rest
    rw [hassoc] at hfind hnodup hdisj
    obtain ⟨stF, hF, hFmem⟩ := ih (done ++ [c])
      { functions := (c, Handle.layer c) :: st.functions,
        usused_func := insert (Handle.layer c) u }
      hfind htopo_rest hnodup hdisj hdone' hlookup' husused'
    refine ⟨stF, ?_, ?_⟩
    · simp only [instance_functions, hstep]
      exact hF
    · rw [hassoc]
      exact hFmem

theorem wfTopo_not_self_input (cntk_layers : List (String × CntkLayer))
    (placeholders : List String) :
    ∀ (rest done : List String),
      wfTopo cntk_layers placeholders done rest = true →
      (done ++ rest).Nodup →
      (∀ s ∈ done ++ rest, s ∉ placeholders) →
      ∀ s ∈ rest, s ∉ inputsOf cntk_layers s := by
  intro rest
  induction rest with
  | nil =>
    intro done _ _ _ s hs
    simp at hs
  | cons c rest ih =>
    intro done htopo hnodup hdisj s hs
    rw [wfTopo, Bool.and_eq_true] at htopo
    obtain ⟨htopo_c, htopo_rest⟩ := htopo
    rcases List.mem_cons.mp hs with rfl | hs'
    · intro hcin
      cases hlc : dictLookup cntk_layers s with
      | none =>
        unfold inputsOf at hcin
        rw [hlc] at hcin
        simp at hcin
      | some l =>
        unfold inputsOf at hcin
        rw [hlc] at hcin
        rw [hlc] at htopo_c
        have hins : ∀ x ∈ l.inputs, x ∈ placeholders ∨ x ∈ done := by
          simpa using htopo_c
        have hcnotP : s ∉ placeholders := hdisj s (by simp)
        have hcnotdone : s ∉ done := by
          obtain ⟨_, _, hdj⟩ := List.nodup_append.mp hnodup
          intro hcd
          exact hdj hcd (by simp)
        rcases hins s (by simpa using hcin) with h | h
        · exact hcnotP h
        · exact hcnotdone h
    · refine ih (done ++ [c]) htopo_rest ?_ ?_ s hs'
      · rw [← List.append_cons]
        exact hnodup
      · rw [← List.append_cons]
        exact hdisj

theorem consumedElsewhere_false_iff (cntk_layers : List (String × CntkLayer))
    (sorted : List String) (s : String) :
    consumedElsewhere cntk_layers sorted s = false ↔
      ∀ t ∈ sorted, t ≠ s → s ∉ inputsOf cntk_layers t := by
  unfold consumedElsewhere
  rw [← Bool.not_eq_true, List.any_eq_true]
  constructor
  · intro h t ht hts hsin
    exact h ⟨t, ht, by simp [hts, hsin]⟩
  · rintro h ⟨t, ht, hp⟩
    have hp' : t ≠ s ∧ s ∈ inputsOf cntk_layers t := by simpa using hp
    exact h t ht hp'.1 hp'.2

/-- C1: for every uni-model processed in topological order — the sorted
layer identifiers pairwise distinct, registered under their own `op_name`,
disjoint from the input-placeholder names, and every declared input already
bound (a placeholder name or an earlier layer) when its consumer is
processed — `instance_functions` succeeds, and the `usused_func` set passed
to the final `ops.combine` (source line 277) equals exactly the set of
output handles of the layers whose identifier never appears in any other
layer's `inputs` list. -/
theorem instance_functions_terminal_set
    (cntk_layers : List (String × CntkLayer))
    (cntk_sorted_layers placeholders : List String) (st0 : AsmState)
    (hfun0 : st0.functions = placeholders.map (fun s => (s, Handle.input s)))
    (hunused0 : st0.usused_func = ∅)
    (hfind : wfFind cntk_layers cntk_sorted_layers = true)
    (htopo : wfTopo cntk_layers placeholders [] cntk_sorted_layers = true)
    (hnodup : cntk_sorted_layers.Nodup)
    (hdisj : ∀ s ∈ cntk_sorted_layers, s ∉ placeholders) :
    ∃ stF, instance_functions cntk_layers st0 cntk_sorted_layers = some stF ∧
      stF.usused_func = terminalHandles cntk_layers cntk_sorted_layers := by
  have hlookup0 : ∀ k, dictLookup st0.functions k =
      if k ∈ ([] : List String) then some (Handle.layer k)
      else if k ∈ placeholders then some (Handle.input k) else none := by
    intro k
    have hne : ¬ k ∈ ([] : List String) := by simp
    rw [hfun0, dictLookup_placeholder_map, if_neg hne]
  have husused0 : ∀ hh, hh ∈ st0.usused_func ↔
      ∃ s ∈ ([] : List String), hh = Handle.layer s ∧
        ∀ t ∈ ([] : List String), s ∉ inputsOf cntk_layers t := by
    intro hh
    rw [hunused0]
    simp
  obtain ⟨stF, hF, hmem⟩ := instance_functions_go cntk_layers placeholders
    cntk_sorted_layers [] st0 (by simpa using hfind) htopo
    (by simpa using hnodup) (by simpa using hdisj) (by simp) hlookup0 husused0
  refine ⟨stF, hF, ?_⟩
  have hself : ∀ s ∈ cntk_sorted_layers, s ∉ inputsOf cntk_layers s :=
    wfTopo_not_self_input cntk_layers placeholders cntk_sorted_layers [] htopo
      (by simpa using hnodup) (by simpa using hdisj)
  apply Finset.ext
  intro hh
  have hmem' := hmem hh
  simp only [List.nil_append] at hmem'
  rw [hmem']
  unfold terminalHandles
  rw [List.mem_toFinset]
  constructor
  · rintro ⟨s, hs, rfl, hcond⟩
    apply List.mem_map.mpr
    refine ⟨s, List.mem_filter.mpr ⟨hs, ?_⟩, rfl⟩
    rw [Bool.not_eq_true']
    exact (consumedElsewhere_false_iff cntk_layers cntk_sorted_layers s).mpr
      (fun t ht _ => hcond t ht)
  · intro hmap
    obtain ⟨s, hsf, heq⟩ := List.mem_map.mp hmap
    obtain ⟨hs, hbool⟩ := List.mem_filter.mp hsf
    rw [Bool.not_eq_true'] at hbool
    have hcond' := (consumedElsewhere_false_iff cntk_layers cntk_sorted_layers s).mp hbool
    refine ⟨s, hs, heq.symm, ?_⟩
    intro t ht
    by_cases hts : t = s
    · subst hts
      exact hself t ht
    · exact hcond' t ht hts

/-- Witness for C1: the spec's branching DAG `A → B`, `A → C`,
`B, C → D` over the input placeholder `data`: assembly succeeds and the
terminal set is the claimed one. -/
theorem instance_functions_terminal_set_witness :
    ∃ stF, instance_functions c1Layers
        ⟨["data"].map (fun s => (s, Handle.input s)), ∅⟩
        ["A", "B", "C", "D"] = some stF ∧
      stF.usused_func = terminalHandles c1Layers ["A", "B", "C", "D"] :=
  instance_functions_terminal_set c1Layers ["A", "B", "C", "D"] ["data"]
    ⟨["data"].map (fun s => (s, Handle.input s)), ∅⟩ rfl rfl
    (by decide) (by decide) (by decide) (by decide)

/-- Witness for C9's amended theorem: concrete solvers for both branches. -/
theorem eval_model_missing_index_early_return_witness :
    eval_model { index_map := none, mean_file := some "mean.xml" } =
      EvalOutcome.earlyExit
        ["start eval...", "launch map and mean files",
         "fail to locate index files, eval exit."] ∧
    eval_model { index_map := some "index.txt", mean_file := some "mean.xml" } =
      EvalOutcome.proceed ["start eval...", "launch map and mean files"]
        "index.txt" (some "mean.xml") :=
  ⟨(eval_model_missing_index_early_return
      { index_map := none, mean_file := some "mean.xml" }).1 rfl,
   (eval_model_missing_index_early_return
      { index_map := some "index.txt", mean_file := some "mean.xml" }).2
      "index.txt" rfl⟩

end CntkInstance
